import Mathlib

/-!
Verification of the two utility scripts of this repository:
`scripts/prepare_airdrop_csv.py` (airdrop CSV preparer) and
`scripts/calculate_src_coverage.py` (coverage summarizer).

The Python scripts are shallowly embedded as executable Lean definitions.
Python `Decimal` values (module `decimal`) are embedded as pairs of an
integer coefficient and an integer exponent, denoting `coeff * 10 ^ exp`.
The default context has 28 significant digits of precision, rounding
ROUND_HALF_EVEN, exponent limits Emin = -999999 and Emax = 999999, a
trapped Overflow signal (an overflowing operation raises) and quiet
underflow (a result below the normal range is rounded at the minimum
exponent Etiny, possibly flushing to zero).  The embedding has two
layers: a precision-only layer (`ctxRound`, `ctxAdd`, `ctxMul`,
`pyDecimal`, `prepare_csv`), which agrees with the Python operations
whenever every result stays inside the exponent range and every literal
is a plain finite decimal, and the full layer (`decCtxFix`, `decAdd`,
`decMul`, `pyDecimalLit`, `prepare_csv_run`), which also embeds the
exponent limits, the trapped Overflow, the subnormal flush, and the
complete constructor domain (NaN/sNaN/Infinity literals, underscore
separators, the exponent bounds of the libmpdec implementation) together
with the process aborts these cause in the row loop.
-/

namespace Avs

/-- A finite Python `Decimal` value: the number `coeff * 10 ^ exp`. -/
structure PyDec where
  coeff : Int
  exp : Int
deriving Repr, DecidableEq

/-- Number of decimal digits of `n`, computed with explicit fuel so that it
reduces in the kernel; `numDigitsAux fuel n` is correct whenever
`fuel` is at least the digit count, which `numDigits` ensures by passing
`n` itself as fuel. Zero has one digit, as in the Python string form. -/
def numDigitsAux : Nat → Nat → Nat
  | 0, _ => 1
  | fuel + 1, n => if n < 10 then 1 else 1 + numDigitsAux fuel (n / 10)

/-- Number of decimal digits of a natural number. -/
def numDigits (n : Nat) : Nat := numDigitsAux n n

/-- A coefficient fits the default decimal context when it has at most 28
significant digits, i.e. its absolute value is below `10 ^ 28`. -/
def fitsCtx (n : Int) : Bool := n.natAbs < 10 ^ 28

/-- Round `n / 10 ^ k` to a natural number with ROUND_HALF_EVEN:
below half rounds down, above half rounds up, exact halves go to the even
neighbour.  This is the magnitude part of the context rounding step. -/
def roundHalfEvenDrop (n k : Nat) : Nat :=
  let p := 10 ^ k
  let q := n / p
  let r := n % p
  if 2 * r < p then q
  else if p < 2 * r then q + 1
  else if q % 2 = 0 then q else q + 1

/-- Precision-only context rounding: if the coefficient exceeds 28
digits, the excess digits are dropped with half-even rounding of the
magnitude and the exponent is raised accordingly; otherwise the value is
returned unchanged.  This is the `_fix` adjustment of the `decimal`
module restricted to results whose adjusted exponent lies inside the
normal range [Emin, Emax] of the default context; `decCtxFix` below is
the unrestricted adjustment with the exponent limits. -/
def ctxRound (x : PyDec) : PyDec :=
  if fitsCtx x.coeff then x
  else
    let k := numDigits x.coeff.natAbs - 28
    let m := roundHalfEvenDrop x.coeff.natAbs k
    ⟨if x.coeff < 0 then -(m : Int) else (m : Int), x.exp + k⟩

/-- Exact sum of two decimals: align both operands at the smaller exponent
and add the aligned coefficients. -/
def rawAdd (a b : PyDec) : PyDec :=
  let m := min a.exp b.exp
  ⟨a.coeff * 10 ^ (a.exp - m).toNat + b.coeff * 10 ^ (b.exp - m).toNat, m⟩

/-- Addition under the default context, precision-only layer: exact sum,
then precision rounding.  Agrees with `decAdd` below (the full model of
`Decimal.__add__`) whenever the exact sum is inside the normal exponent
range, see `decAdd_agrees`. -/
def ctxAdd (a b : PyDec) : PyDec := ctxRound (rawAdd a b)

/-- Exact product of two decimals. -/
def rawMul (a b : PyDec) : PyDec := ⟨a.coeff * b.coeff, a.exp + b.exp⟩

/-- Multiplication under the default context, precision-only layer:
exact product, then precision rounding.  Agrees with the full model
`decMul` below whenever the exact product is inside the normal exponent
range. -/
def ctxMul (a b : PyDec) : PyDec := ctxRound (rawMul a b)

/-- Truncation of a decimal toward zero, as an integer.  This is both
`int(d)` and `int(d.to_integral_value(rounding=ROUND_DOWN))` in Python:
to_integral_value rounds to exponent 0 without a precision limit, and
ROUND_DOWN rounds toward zero. -/
def truncVal (x : PyDec) : Int :=
  if 0 ≤ x.exp then x.coeff * 10 ^ x.exp.toNat
  else Int.tdiv x.coeff (10 ^ (-x.exp).toNat)

/-- The rational value denoted by a decimal. -/
def valD (x : PyDec) : ℚ :=
  if 0 ≤ x.exp then (x.coeff : ℚ) * 10 ^ x.exp.toNat
  else (x.coeff : ℚ) / 10 ^ (-x.exp).toNat

/-- The decimal zero, `Decimal('0')`. -/
def zeroDec : PyDec := ⟨0, 0⟩

/-- `Decimal(10 ** decimals)`: the constructor on an int is exact. -/
def pow10Dec (d : Nat) : PyDec := ⟨(10 : Int) ^ d, 0⟩

/-- Characters stripped by Python `str.strip()` and by the surrounding
whitespace handling of the `Decimal` constructor: exactly the code points
for which `str.isspace()` holds. -/
def isPySpace (c : Char) : Bool :=
  (9 ≤ c.toNat && c.toNat ≤ 13) || (28 ≤ c.toNat && c.toNat ≤ 32) ||
  c.toNat = 133 || c.toNat = 160 || c.toNat = 5760 ||
  (8192 ≤ c.toNat && c.toNat ≤ 8202) || c.toNat = 8232 || c.toNat = 8233 ||
  c.toNat = 8239 || c.toNat = 8287 || c.toNat = 12288

/-- Drop leading and trailing whitespace from a character list. -/
def stripChars (cs : List Char) : List Char :=
  ((cs.dropWhile isPySpace).reverse.dropWhile isPySpace).reverse

/-- Python `s.strip()` on a string. -/
def pyStrip (s : String) : String := ⟨stripChars s.data⟩

/-- ASCII decimal digit test. -/
def isDig (c : Char) : Bool := '0' ≤ c && c ≤ '9'

/-- Value of an ASCII digit character. -/
def digVal (c : Char) : Nat := c.toNat - 48

/-- Natural number denoted by a digit string, most significant first. -/
def digitsToNat (cs : List Char) : Nat := cs.foldl (fun n c => 10 * n + digVal c) 0

/-- Grammar of finite decimal literals accepted by the Python `Decimal`
constructor: an optional sign, then either digits with an optional
fraction or a bare fraction, then an optional exponent part
`('e'|'E') sign? digits`.  Returns the coefficient and exponent of the
parsed value, or `none` when the literal is rejected (in which case the
constructor raises InvalidOperation). -/
def parseDecChars (cs : List Char) : Option PyDec :=
  let sgn : Int := match cs with
    | '-' :: _ => -1
    | _ => 1
  let cs1 : List Char := match cs with
    | '+' :: t => t
    | '-' :: t => t
    | _ => cs
  let ip := cs1.takeWhile isDig
  let cs2 := cs1.dropWhile isDig
  let fp : List Char := match cs2 with
    | '.' :: t => t.takeWhile isDig
    | _ => []
  let cs3 : List Char := match cs2 with
    | '.' :: t => t.dropWhile isDig
    | _ => cs2
  if ip.isEmpty && fp.isEmpty then none
  else
    match cs3 with
    | [] => some ⟨sgn * digitsToNat (ip ++ fp), -(fp.length : Int)⟩
    | e :: t =>
      if e = 'e' || e = 'E' then
        let esgn : Int := match t with
          | '-' :: _ => -1
          | _ => 1
        let t1 : List Char := match t with
          | '+' :: t2 => t2
          | '-' :: t2 => t2
          | _ => t
        let ed := t1.takeWhile isDig
        let rest := t1.dropWhile isDig
        if ed.isEmpty || !rest.isEmpty then none
        else some ⟨sgn * digitsToNat (ip ++ fp), esgn * digitsToNat ed - fp.length⟩
      else none

/-- The Python `Decimal(string)` constructor restricted to plain finite
literals (no underscore separators, no NaN/Infinity, no exponent-range
check).  The constructor itself permits surrounding whitespace, which it
strips.  The full constructor domain is embedded by `pyDecimalLit`
below. -/
def pyDecimal (s : String) : Option PyDec := parseDecChars (stripChars s.data)

/-- State accumulated by `prepare_csv` while processing rows: the strings
written to the output file in order, and the accumulators
`total`, `total_original`, `count`, `dust_count`, `dust_total` of
`scripts/prepare_airdrop_csv.py`. -/
structure PrepState where
  writes : List String
  total : PyDec
  totalOriginal : PyDec
  count : Nat
  dustCount : Nat
  dustTotal : PyDec
deriving Repr, DecidableEq

/-- Initial accumulator state of `prepare_csv`. -/
def initState : PrepState := ⟨[], zeroDec, zeroDec, 0, 0, zeroDec⟩

/-- The per-row scaling computation of `prepare_csv`:
`scaled = amount * Decimal(10 ** decimals)` followed by
`amount_int = int(scaled.to_integral_value(rounding=ROUND_DOWN))`. -/
def scaled_amount (a : PyDec) (decimals : Nat) : Int :=
  truncVal (ctxMul a (pow10Dec decimals))

/-- The body of the row loop of `prepare_csv` for one CSV row (a list of
fields as produced by `csv.reader`): rows with fewer than 2 fields are
skipped; the amount field is stripped and parsed as a decimal, parse
failures are skipped; the amount is added to `total_original`; the scaled
integer amount is compared with `min_scaled`; a kept row appends the line
`addr,amount_int` plus a newline to the output and updates `total` and
`count`; otherwise `dust_count` and `dust_total` are updated. -/
def processRow (decimals : Nat) (minScaled : Int) (st : PrepState) (row : List String) : PrepState :=
  match row with
  | a :: b :: _ =>
    let addr := pyStrip a
    match pyDecimal (pyStrip b) with
    | none => st
    | some amount =>
      let st1 := { st with totalOriginal := ctxAdd st.totalOriginal amount }
      let amountInt := scaled_amount amount decimals
      if minScaled ≤ amountInt then
        { st1 with
            writes := st1.writes ++ [addr ++ "," ++ toString amountInt ++ "\n"],
            total := ctxAdd st1.total ⟨amountInt, 0⟩,
            count := st1.count + 1 }
      else
        { st1 with
            dustCount := st1.dustCount + 1,
            dustTotal := ctxAdd st1.dustTotal amount }
  | _ => st

/-- The default minimum amount `Decimal('0.00001')`. -/
def defaultMinAmount : PyDec := ⟨1, -5⟩

/-- `min_scaled = int(min_amount * Decimal(10 ** decimals))`. -/
def minScaledOf (minAmount : PyDec) (decimals : Nat) : Int :=
  truncVal (ctxMul minAmount (pow10Dec decimals))

/-- The `prepare_csv` function of `scripts/prepare_airdrop_csv.py`, from
the parsed rows of the input CSV, in the precision-only layer: every
amount literal is a plain finite decimal and no operation leaves the
normal exponent range, so no statement aborts.  `minAmount = none`
models the default argument, replaced by `Decimal(0.00001 as a literal)`.
The full model including the aborts is `prepare_csv_run` below. -/
def prepare_csv (rows : List (List String)) (decimals : Nat) (minAmount : Option PyDec) : PrepState :=
  let ma := minAmount.getD defaultMinAmount
  let minScaled := minScaledOf ma decimals
  rows.foldl (processRow decimals minScaled) initState

/-! Full default-context semantics.  The `decimal` default context has
prec = 28, Emin = -999999, Emax = 999999, rounding ROUND_HALF_EVEN, and
traps exactly InvalidOperation, DivisionByZero and Overflow.  Every
arithmetic result passes through the `_fix` adjustment: a zero has its
exponent clamped into [Etiny, Emax]; a nonzero result whose adjusted
exponent exceeds Emax raises Overflow (trapped, so the uncaught
exception aborts `prepare_csv`); a subnormal result (adjusted exponent
below Emin) is rounded at Etiny = Emin - prec + 1, possibly flushing to
zero with only untrapped signals; otherwise the coefficient is rounded
to prec digits, and a carry out of the top digit can push the result
past Emax, also raising Overflow. -/

/-- Precision of the default decimal context. -/
def decPrec : Nat := 28

/-- Largest allowed adjusted exponent of the default context. -/
def decEmax : Int := 999999

/-- Smallest normal adjusted exponent of the default context. -/
def decEmin : Int := -999999

/-- Smallest exponent of a subnormal result, `Emin - prec + 1`. -/
def decEtiny : Int := decEmin - decPrec + 1

/-- Largest exponent such that prec digits still fit under Emax,
`Emax - prec + 1`; a required result exponent above it means Overflow. -/
def decEtop : Int := decEmax - decPrec + 1

/-- Adjusted exponent of a decimal: the exponent of its leading digit. -/
def adjustedExp (x : PyDec) : Int := x.exp + (numDigits x.coeff.natAbs : Int) - 1

/-- The `_fix` context adjustment applied by the `decimal` module to
every arithmetic result, under the default context; `none` is a raised
(trapped) Overflow.  Mirrors `_pydecimal.Decimal._fix` with clamp = 0:
the zero branch clamps the exponent; for a nonzero result the smallest
allowed exponent is `digits + exp - prec`, above `Etop` exactly when the
adjusted exponent is above Emax (Overflow); a subnormal result instead
uses Etiny; a result with a smaller exponent is rounded half-even on the
magnitude, a carry to prec + 1 digits drops its trailing zero and raises
the exponent, overflowing when that passes Etop. -/
def decCtxFix (x : PyDec) : Option PyDec :=
  if x.coeff = 0 then some ⟨0, min (max x.exp decEtiny) decEmax⟩
  else
    let n : Int := (numDigits x.coeff.natAbs : Int)
    if decEtop < n + x.exp - decPrec then none
    else
      let expMin : Int := if adjustedExp x < decEmin then decEtiny else n + x.exp - decPrec
      if x.exp < expMin then
        let m := roundHalfEvenDrop x.coeff.natAbs (expMin - x.exp).toNat
        if m = 10 ^ decPrec then
          if decEtop < expMin + 1 then none
          else some ⟨if x.coeff < 0 then -((10 : Int) ^ (decPrec - 1))
            else (10 : Int) ^ (decPrec - 1), expMin + 1⟩
        else some ⟨if x.coeff < 0 then -(m : Int) else (m : Int), expMin⟩
      else some x

/-- Python `Decimal.__add__` under the default context, full model:
exact sum, then the `_fix` adjustment; `none` is a raised Overflow. -/
def decAdd (a b : PyDec) : Option PyDec := decCtxFix (rawAdd a b)

/-- Python `Decimal.__mul__` under the default context, full model:
exact product, then the `_fix` adjustment; `none` is a raised
Overflow. -/
def decMul (a b : PyDec) : Option PyDec := decCtxFix (rawMul a b)

/-- A value accepted by the `Decimal` constructor: either a finite
decimal, or one of the special values NaN, sNaN, ±Infinity.  A special
amount always crashes the row loop of `prepare_csv` before it writes
anything for the row: an sNaN raises InvalidOperation at the
`total_original` addition, a quiet NaN reaches `int(...)` which raises
ValueError, an Infinity reaches `int(...)` which raises OverflowError;
all three exceptions are uncaught. -/
inductive PyLit where
  | finite (x : PyDec)
  | special
deriving Repr, DecidableEq

/-- Smallest exponent the libmpdec constructor accepts,
`MPD_MIN_EMIN - (MPD_MAX_PREC - 1)`. -/
def conMinExp : Int := -1999999999999999997

/-- Largest adjusted exponent the libmpdec constructor accepts,
`MPD_MAX_EMAX`. -/
def conMaxAdjusted : Int := 999999999999999999

/-- Lower-casing of ASCII letters, for the case-insensitive special
literals. -/
def toLowerAscii (c : Char) : Char :=
  if 'A' ≤ c && c ≤ 'Z' then Char.ofNat (c.toNat + 32) else c

/-- The constructor removes every underscore from the literal after
stripping surrounding whitespace (so `1_0`, `_1`, `1__2`, even `n_an`
are accepted, but an underscore never hides other invalid characters). -/
def dropUnderscores (cs : List Char) : List Char := cs.filter (fun c => c != '_')

/-- Grammar of the full `Decimal` constructor, applied after whitespace
stripping and underscore removal: an optional sign followed by `inf`,
`infinity`, `nan` or `snan` (case-insensitive, NaN with an optional
digit payload) gives a special value; otherwise the finite grammar
applies, and the stored exponent and adjusted exponent must lie within
the libmpdec bounds, else the constructor raises InvalidOperation
(`none`, and the row is skipped by the bare `except`). -/
def parseLitChars (cs : List Char) : Option PyLit :=
  let body : List Char := match cs with
    | '+' :: t => t
    | '-' :: t => t
    | _ => cs
  let low := body.map toLowerAscii
  if low = "inf".data || low = "infinity".data then some .special
  else
    match low with
    | 'n' :: 'a' :: 'n' :: rest => if rest.all isDig then some .special else none
    | 's' :: 'n' :: 'a' :: 'n' :: rest => if rest.all isDig then some .special else none
    | _ =>
      match parseDecChars cs with
      | some x =>
        if conMinExp ≤ x.exp ∧ adjustedExp x ≤ conMaxAdjusted then some (.finite x)
        else none
      | none => none

/-- The full `Decimal(string)` constructor. -/
def pyDecimalLit (s : String) : Option PyLit :=
  parseLitChars (dropUnderscores (stripChars s.data))

/-- Observable outcome of a `prepare_csv` call under the full model: a
completed run with its final accumulator state, or a crash from an
uncaught exception, carrying the lines already written to the output
file (the `with` statement closes and flushes the file while the
exception propagates). -/
inductive RunResult where
  | done (st : PrepState)
  | crash (writes : List String)
deriving Repr, DecidableEq

/-- The lines present in the output file after a run outcome. -/
def runWrites : RunResult → List String
  | .done st => st.writes
  | .crash w => w

/-- The stripped first field of a row. -/
def addrOf (row : List String) : String :=
  match row with
  | a :: _ => pyStrip a
  | [] => ""

/-- The constructor result for the amount field of a row with at least 2
fields. -/
def rowAmountLit (row : List String) : Option PyLit :=
  match row with
  | _ :: b :: _ => pyDecimalLit (pyStrip b)
  | _ => none

/-- One iteration of the row loop of `prepare_csv` under the full model.
A row with fewer than 2 fields, or whose amount the constructor rejects,
is skipped.  A special amount crashes before anything is written for the
row.  For a finite amount the statements run in source order:
`total_original += amount` (crash on Overflow), the scaling
multiplication (crash on Overflow), the truncation, then either the
output write followed by `total += Decimal(amount_int)` (an Overflow
there crashes after the line was written) and `count += 1`, or
`dust_count += 1` and `dust_total += amount` (crash on Overflow). -/
def processRowRun (d : Nat) (mS : Int) (st : PrepState) (row : List String) : RunResult :=
  match row with
  | a :: b :: _ =>
    let addr := pyStrip a
    match pyDecimalLit (pyStrip b) with
    | none => .done st
    | some .special => .crash st.writes
    | some (.finite amount) =>
      match decAdd st.totalOriginal amount with
      | none => .crash st.writes
      | some tOrig =>
        let st1 := { st with totalOriginal := tOrig }
        match decMul amount (pow10Dec d) with
        | none => .crash st1.writes
        | some scaled =>
          let amountInt := truncVal scaled
          if mS ≤ amountInt then
            let st2 := { st1 with
              writes := st1.writes ++ [addr ++ "," ++ toString amountInt ++ "\n"] }
            match decAdd st2.total ⟨amountInt, 0⟩ with
            | none => .crash st2.writes
            | some t2 => .done { st2 with total := t2, count := st2.count + 1 }
          else
            match decAdd st1.dustTotal amount with
            | none => .crash st1.writes
            | some dt => .done { st1 with dustCount := st1.dustCount + 1, dustTotal := dt }
  | _ => .done st

/-- Folding step over the rows: a crash ends the loop, the file is
closed, and the process exits with the traceback. -/
def stepRun (d : Nat) (mS : Int) (r : RunResult) (row : List String) : RunResult :=
  match r with
  | .crash w => .crash w
  | .done st => processRowRun d mS st row

/-- The threshold computation
`min_scaled = int(min_amount * Decimal(10 ** decimals))`, which runs
before the files are opened: a special minimum amount or an overflowing
multiplication raises there, crashing the run with no file touched. -/
def minScaledRun (ma : Option PyLit) (d : Nat) : Option Int :=
  match ma.getD (.finite defaultMinAmount) with
  | .special => none
  | .finite m =>
    match decMul m (pow10Dec d) with
    | none => none
    | some ms => some (truncVal ms)

/-- The `prepare_csv` function under the full model. -/
def prepare_csv_run (rows : List (List String)) (d : Nat) (ma : Option PyLit) : RunResult :=
  match minScaledRun ma d with
  | none => .crash []
  | some mS => rows.foldl (stepRun d mS) (.done initState)

/-- The finite parsed amount of a row, if any. -/
def finiteAmount (row : List String) : Option PyDec :=
  match rowAmountLit row with
  | some (.finite x) => some x
  | _ => none

/-- The output line of a kept row under the full model: a finite amount
whose scaling succeeds with a truncation at least the threshold. -/
def keptLineRun (d : Nat) (mS : Int) (row : List String) : Option String :=
  match rowAmountLit row with
  | some (.finite amt) =>
    match decMul amt (pow10Dec d) with
    | some s =>
      if mS ≤ truncVal s then
        some (addrOf row ++ "," ++ toString (truncVal s) ++ "\n")
      else none
    | none => none
  | _ => none

/-- The original amount of a kept row under the full model. -/
def keptAmountRun (d : Nat) (mS : Int) (row : List String) : Option PyDec :=
  match rowAmountLit row with
  | some (.finite amt) =>
    match decMul amt (pow10Dec d) with
    | some s => if mS ≤ truncVal s then some amt else none
    | none => none
  | _ => none

/-- The original amount of a dust row under the full model: a finite
amount that scales successfully but truncates below the threshold. -/
def dustAmountRun (d : Nat) (mS : Int) (row : List String) : Option PyDec :=
  match rowAmountLit row with
  | some (.finite amt) =>
    match decMul amt (pow10Dec d) with
    | some s => if mS ≤ truncVal s then none else some amt
    | none => none
  | _ => none

/-- The scaling of one amount under the full model,
`int((amount * Decimal(10 ** decimals)).to_integral_value(ROUND_DOWN))`:
`none` when the multiplication raises trapped Overflow and the run
aborts, otherwise the truncated integer (line 127 of the script). -/
def scaled_amount_run (a : PyDec) (decimals : Nat) : Option Int :=
  (decMul a (pow10Dec decimals)).map truncVal

/-- A result kept syntactically unchanged by the `_fix` adjustment: a
zero with its exponent already inside [Etiny, Emax], or a nonzero value
with at most prec digits whose adjusted exponent is inside the normal
range [Emin, Emax]. -/
def fixKeeps (x : PyDec) : Bool :=
  if x.coeff = 0 then decide (decEtiny ≤ x.exp ∧ x.exp ≤ decEmax)
  else fitsCtx x.coeff && decide (decEmin ≤ adjustedExp x ∧ adjustedExp x ≤ decEmax)

/-- Check that a left fold of exact additions starting from `acc` is
left untouched by the context: every intermediate exact sum satisfies
`fixKeeps`, so no rounding, no underflow flush and no Overflow occur. -/
def foldKeeps : PyDec → List PyDec → Bool
  | _, [] => true
  | acc, x :: xs => fixKeeps (rawAdd acc x) && foldKeeps (rawAdd acc x) xs

/-! Coverage summarizer, `scripts/calculate_src_coverage.py`.  The script
runs the external coverage tool, splits its captured stdout on newlines,
and folds over the lines.  The fold is embedded below; the regular
expression `(\d+\.\d+)% \((\d+)/(\d+)\)` is embedded as a leftmost-match
scanner (each `\d+` in the pattern is followed by a non-digit literal, so
greedy matching coincides with maximal munch). -/

/-- Accumulators of the coverage script: `covered`, `total`, and the
`files` list of `(line.strip(), c, t, missing)` entries. -/
structure CovState where
  covered : Nat
  total : Nat
  files : List (String × Nat × Nat × Nat)
deriving Repr, DecidableEq

/-- Attempt to match `(\d+\.\d+)% \((\d+)/(\d+)\)` at the head of the
character list, returning the two parenthesised counts `(c, t)`. -/
def matchPctAt (cs : List Char) : Option (Nat × Nat) :=
  let d1 := cs.takeWhile isDig
  let cs1 := cs.dropWhile isDig
  if d1.isEmpty then none else
  match cs1 with
  | '.' :: cs2 =>
    let d2 := cs2.takeWhile isDig
    let cs3 := cs2.dropWhile isDig
    if d2.isEmpty then none else
    match cs3 with
    | '%' :: ' ' :: '(' :: cs4 =>
      let dc := cs4.takeWhile isDig
      let cs5 := cs4.dropWhile isDig
      if dc.isEmpty then none else
      match cs5 with
      | '/' :: cs6 =>
        let dt := cs6.takeWhile isDig
        let cs7 := cs6.dropWhile isDig
        if dt.isEmpty then none else
        match cs7 with
        | ')' :: _ => some (digitsToNat dc, digitsToNat dt)
        | _ => none
      | _ => none
    | _ => none
  | _ => none

/-- Leftmost search for the pattern, as `re.search` does: try each start
position from the left and return the first match. -/
def reSearchPct : List Char → Option (Nat × Nat)
  | [] => none
  | c :: rest =>
    match matchPctAt (c :: rest) with
    | some p => some p
    | none => reSearchPct rest

/-- Substring containment test, Python `pat in s`. -/
def hasSub (pat : List Char) : List Char → Bool
  | [] => pat.isEmpty
  | c :: t => pat.isPrefixOf (c :: t) || hasSub pat t

/-- One line of the coverage output contributes `(c, t)` when it contains
the literal marker `| src/` and the pattern matches somewhere in it. -/
def lineMatch (line : String) : Option (Nat × Nat) :=
  if hasSub "| src/".data line.data then reSearchPct line.data else none

/-- The body of the line loop of the coverage script. -/
def covStep (st : CovState) (line : String) : CovState :=
  match lineMatch line with
  | none => st
  | some (c, t) =>
    let st1 := { st with covered := st.covered + c, total := st.total + t }
    if 0 < t - c then
      { st1 with files := st1.files ++ [(pyStrip line, c, t, t - c)] }
    else st1

/-- Fold of the coverage script over the lines of the tool output. -/
def covRun (outLines : List String) : CovState :=
  outLines.foldl covStep ⟨0, 0, []⟩

/-- Process exit status of the coverage script on a given tool output.
When `total > 0` the script exits explicitly with 0 if
`missing = total - covered` is 0 and with 1 otherwise; when `total = 0`
the trailing block is skipped entirely and the interpreter finishes the
script normally, which is exit status 0. -/
def covExit (outLines : List String) : Nat :=
  let st := covRun outLines
  if 0 < st.total then
    if (st.total : Int) - (st.covered : Int) = 0 then 0 else 1
  else 0

/-! Token metadata fetch of `scripts/prepare_airdrop_csv.py`.  The JSON-RPC
exchange is embedded abstractly: a fetch either fails before a JSON
response is available (network error, timeout, malformed JSON), or yields
a response with an optional `error` member and an optional `result`
member (a string when present, as returned by `eth_call`). -/

/-- Outcome of one HTTP JSON-RPC exchange, before interpretation. -/
inductive FetchOutcome where
  | netError (msg : String)
  | ok (error : Option String) (result : Option String)
deriving Repr, DecidableEq

/-- ASCII hexadecimal digit test. -/
def isHexDig (c : Char) : Bool :=
  ('0' ≤ c && c ≤ '9') || ('a' ≤ c && c ≤ 'f') || ('A' ≤ c && c ≤ 'F')

/-- Value of an ASCII hexadecimal digit. -/
def hexVal (c : Char) : Nat :=
  if c ≤ '9' then c.toNat - 48 else if c ≤ 'F' then c.toNat - 55 else c.toNat - 87

/-- Natural number denoted by a hexadecimal digit string. -/
def hexToNat (cs : List Char) : Nat := cs.foldl (fun n c => 16 * n + hexVal c) 0

/-- Python `int(s, 16)` on the strings this script feeds it: an optional
`0x` or `0X` prefix followed by at least one hexadecimal digit; anything
else raises ValueError (`none` here). -/
def parseHexNat (s : String) : Option Nat :=
  let cs := s.data
  let cs1 : List Char := match cs with
    | '0' :: 'x' :: t => t
    | '0' :: 'X' :: t => t
    | _ => cs
  if !cs1.isEmpty && cs1.all isHexDig then some (hexToNat cs1) else none

/-- The `get_token_decimals` function: a network failure propagates as an
exception; a response with an `error` member raises `RPC error: ...`; a
missing `result` member raises KeyError; a malformed hex result raises
ValueError from `int(result, 16)`.  Every failure is an `Except.error`,
which the caller in `__main__` turns into an abort. -/
def get_token_decimals (o : FetchOutcome) : Except String Nat :=
  match o with
  | .netError m => .error m
  | .ok err res =>
    match err with
    | some e => .error ("RPC error: " ++ e)
    | none =>
      match res with
      | none => .error "KeyError: result"
      | some s =>
        match parseHexNat s with
        | none => .error "invalid literal for int() with base 16"
        | some n => .ok n

/-- Pairs of hexadecimal digits to byte values, Python `bytes.fromhex`:
fails on an odd number of digits or a non-hex character. -/
def hexPairsToBytes : List Char → Option (List Nat)
  | [] => some []
  | [_] => none
  | a :: b :: t =>
    if isHexDig a && isHexDig b then
      (hexPairsToBytes t).map (fun bs => (16 * hexVal a + hexVal b) :: bs)
    else none

/-- Strict UTF-8 decoding of a byte list, Python `bytes.decode('utf-8')`:
rejects bad lead or continuation bytes, overlong encodings, surrogates
and code points above U+10FFFF. -/
def utf8Decode : List Nat → Option (List Char)
  | [] => some []
  | b :: t =>
    if b < 128 then (utf8Decode t).map (fun cs => Char.ofNat b :: cs)
    else if b < 194 then none
    else if b < 224 then
      match t with
      | b2 :: t2 =>
        if 128 ≤ b2 && b2 < 192 then
          (utf8Decode t2).map (fun cs => Char.ofNat ((b - 192) * 64 + (b2 - 128)) :: cs)
        else none
      | _ => none
    else if b < 240 then
      match t with
      | b2 :: b3 :: t2 =>
        let cp := (b - 224) * 4096 + (b2 - 128) * 64 + (b3 - 128)
        if (128 ≤ b2 && b2 < 192) && (128 ≤ b3 && b3 < 192)
            && 2048 ≤ cp && !(55296 ≤ cp && cp < 57344) then
          (utf8Decode t2).map (fun cs => Char.ofNat cp :: cs)
        else none
      | _ => none
    else if b < 245 then
      match t with
      | b2 :: b3 :: b4 :: t2 =>
        let cp := (b - 240) * 262144 + (b2 - 128) * 4096 + (b3 - 128) * 64 + (b4 - 128)
        if (128 ≤ b2 && b2 < 192) && (128 ≤ b3 && b3 < 192) && (128 ≤ b4 && b4 < 192)
            && 65536 ≤ cp && cp ≤ 1114111 then
          (utf8Decode t2).map (fun cs => Char.ofNat cp :: cs)
        else none
      | _ => none
    else none

/-- Python `s.strip('\x00')`: drop NUL characters from both ends. -/
def stripNul (s : String) : String :=
  ⟨((s.data.dropWhile (· = '\x00')).reverse.dropWhile (· = '\x00')).reverse⟩

/-- The ABI string decoding attempted by `get_token_symbol` on a truthy
`result` string: drop the `0x` prefix (the first two characters), require
at least 128 remaining hex characters, read the length word from
characters 64 to 127, take `length * 2` characters of string data, decode
the byte pairs and then UTF-8, and strip NUL padding.  Any failing step
returns `none`; in the script every such failure ends as the sentinel
`UNKNOWN`, via an early return or the surrounding `except`. -/
def decodeSymbolResult (res : String) : Option String :=
  let hex := res.data.drop 2
  if hex.length < 128 then none
  else
    match parseHexNat ⟨(hex.drop 64).take 64⟩ with
    | none => none
    | some length =>
      match hexPairsToBytes ((hex.drop 128).take (length * 2)) with
      | none => none
      | some bytes =>
        (utf8Decode bytes).map (fun cs => stripNul ⟨cs⟩)

/-- Python truthiness of the `result.get('result')` value: falsy when the
member is absent or the empty string. -/
def resFalsy : Option String → Bool
  | none => true
  | some s => s = ""

/-- The `get_token_symbol` function: the whole body is wrapped in
`try/except` returning `UNKNOWN`, and a response with an `error` member
or a falsy `result`, or a short or undecodable payload, also yields
`UNKNOWN`; only a fully decoded payload yields the symbol. -/
def get_token_symbol (o : FetchOutcome) : String :=
  match o with
  | .netError _ => "UNKNOWN"
  | .ok err res =>
    if err.isSome || resFalsy res then "UNKNOWN"
    else
      match decodeSymbolResult (res.getD "") with
      | none => "UNKNOWN"
      | some s => s

/-- The `try` block of `__main__` that fetches token metadata: a failure
of the decimals fetch reaches the `except` handler and the run aborts;
otherwise both values are available (the symbol fetch cannot raise). -/
def fetch_token_info (dResp sResp : FetchOutcome) : Except String (Nat × String) :=
  match get_token_decimals dResp with
  | .error e => .error e
  | .ok d => .ok (d, get_token_symbol sResp)

/-! Command line entry point of `scripts/prepare_airdrop_csv.py`. -/

/-- Result of the optional-argument loop of `__main__`: either the final
`output_csv` and `min_amount` values, or an uncaught InvalidOperation
from `Decimal(sys.argv[i + 1])` which crashes the process. -/
inductive ArgParse where
  | ok (outputCsv : Option String) (minAmount : Option PyDec)
  | crash
deriving Repr, DecidableEq

/-- The `while i < len(sys.argv)` loop over the arguments after the two
positional ones: `--min-amount` followed by a value parses the value as a
decimal and skips it; any other argument (including a trailing
`--min-amount` with nothing after it) overwrites `output_csv`. -/
def parseArgs : List String → Option String → Option PyDec → ArgParse
  | [], out, ma => .ok out ma
  | [a], _, ma => .ok (some a) ma
  | a :: b :: rest, out, ma =>
    if a = "--min-amount" then
      match pyDecimal b with
      | some d => parseArgs rest out (some d)
      | none => .crash
    else parseArgs (b :: rest) (some a) ma

/-- Python truthiness check `if not rpc_url` on the environment lookup:
true when the variable is absent or set to the empty string. -/
def rpcFalsy : Option String → Bool
  | none => true
  | some s => s = ""

/-- Observable outcome of one run of `__main__`: the usage exit
(`sys.exit(1)` after printing the doc string), a crash in the argument
loop, the missing-RPC_URL exit, the abort after a failed metadata fetch,
or a completed run with the final `prepare_csv` state and output path. -/
inductive MainResult where
  | usageExit
  | argCrash
  | rpcUrlExit
  | fetchErrorExit (msg : String)
  | ran (st : PrepState) (outPath : String)
deriving Repr, DecidableEq

/-- Failure classification of a run outcome: every outcome except a
completed run prints a diagnostic and finishes with a non-zero process
exit status. -/
def isFailure : MainResult → Bool
  | .ran _ _ => false
  | _ => true

/-- The `__main__` block, parameterised by the argument vector (including
the program name, so fewer than 2 positional arguments is
`argv.length < 3`), the `RPC_URL` environment value, the outcomes of the
two RPC exchanges, and the parsed rows of the input CSV file. -/
def pyMain (argv : List String) (rpcUrl : Option String)
    (dResp sResp : FetchOutcome) (rows : List (List String)) : MainResult :=
  if argv.length < 3 then .usageExit
  else
    match parseArgs (argv.drop 3) none none with
    | .crash => .argCrash
    | .ok outputCsv minAmount =>
      if rpcFalsy rpcUrl then .rpcUrlExit
      else
        match fetch_token_info dResp sResp with
        | .error e => .fetchErrorExit e
        | .ok (decimals, _symbol) =>
          .ran (prepare_csv rows decimals minAmount)
            (outputCsv.getD "airdrop_prepared.csv")

/-! Value semantics of the decimal embedding. -/

/-- The value of a decimal, written with an integer power. -/
theorem valD_eq_zpow (x : PyDec) : valD x = (x.coeff : ℚ) * (10 : ℚ) ^ x.exp := by
  by_cases h : 0 ≤ x.exp
  · have hz : (10 : ℚ) ^ x.exp = 10 ^ x.exp.toNat := by
      rw [← zpow_natCast (10 : ℚ) x.exp.toNat, Int.toNat_of_nonneg h]
    rw [valD, if_pos h, hz]
  · have hn : (((-x.exp).toNat : ℕ) : ℤ) = -x.exp := Int.toNat_of_nonneg (by omega)
    have hz : (10 : ℚ) ^ x.exp = ((10 : ℚ) ^ (-x.exp).toNat)⁻¹ := by
      rw [← zpow_natCast (10 : ℚ) (-x.exp).toNat, hn, ← zpow_neg, neg_neg]
    rw [valD, if_neg h, hz, div_eq_mul_inv]

/-- Exact addition is addition of values. -/
theorem valD_rawAdd (a b : PyDec) : valD (rawAdd a b) = valD a + valD b := by
  have h10 : (10 : ℚ) ≠ 0 := by norm_num
  have ha : ((a.exp - min a.exp b.exp).toNat : ℤ) = a.exp - min a.exp b.exp :=
    Int.toNat_of_nonneg (by omega)
  have hb : ((b.exp - min a.exp b.exp).toNat : ℤ) = b.exp - min a.exp b.exp :=
    Int.toNat_of_nonneg (by omega)
  simp only [rawAdd, valD_eq_zpow]
  push_cast
  rw [← zpow_natCast (10 : ℚ) (a.exp - min a.exp b.exp).toNat,
    ← zpow_natCast (10 : ℚ) (b.exp - min a.exp b.exp).toNat, ha, hb,
    add_mul, mul_assoc, mul_assoc, ← zpow_add₀ h10, ← zpow_add₀ h10,
    sub_add_cancel, sub_add_cancel]

/-- Exact multiplication is multiplication of values. -/
theorem valD_rawMul (a b : PyDec) : valD (rawMul a b) = valD a * valD b := by
  have h10 : (10 : ℚ) ≠ 0 := by norm_num
  simp only [rawMul, valD_eq_zpow]
  push_cast
  rw [zpow_add₀ h10]
  ring

/-- The value of `Decimal(10 ** d)`. -/
theorem valD_pow10 (d : Nat) : valD (pow10Dec d) = (10 : ℚ) ^ d := by
  simp [pow10Dec, valD]

/-- The value of the decimal zero. -/
theorem valD_zeroDec : valD zeroDec = 0 := by simp [zeroDec, valD]

/-- Context rounding leaves a result alone when its coefficient fits in 28
significant digits. -/
theorem ctxRound_fits {x : PyDec} (h : fitsCtx x.coeff = true) : ctxRound x = x := by
  simp [ctxRound, h]

/-- On decimals with a nonnegative coefficient, truncation toward zero
computes the floor of the value. -/
theorem truncVal_eq_floor {x : PyDec} (h : 0 ≤ x.coeff) : truncVal x = ⌊valD x⌋ := by
  by_cases he : 0 ≤ x.exp
  · rw [truncVal, if_pos he, valD, if_pos he]
    rw [show ((x.coeff : ℚ) * 10 ^ x.exp.toNat) = ((x.coeff * 10 ^ x.exp.toNat : ℤ) : ℚ) by
      push_cast; ring]
    rw [Int.floor_intCast]
  · rw [truncVal, if_neg he, valD, if_neg he]
    have hp : (0 : ℤ) ≤ 10 ^ (-x.exp).toNat := by positivity
    rw [Int.tdiv_eq_ediv h hp]
    rw [show ((10 : ℚ) ^ (-x.exp).toNat) = (((10 ^ (-x.exp).toNat : ℕ) : ℚ)) by push_cast; ring]
    rw [Rat.floor_intCast_div_natCast x.coeff (10 ^ (-x.exp).toNat)]
    push_cast
    rfl

/-! Observers for the row processing loop: which rows are syntactically
valid, which are kept and which are dust, and what a kept row writes. -/

/-- Stripped address and parsed amount of a syntactically valid row: one
with at least 2 fields whose second field parses as a decimal. -/
def rowData (row : List String) : Option (String × PyDec) :=
  match row with
  | a :: b :: _ => (pyDecimal (pyStrip b)).map (fun amt => (pyStrip a, amt))
  | _ => none

/-- The parsed amount of a syntactically valid row. -/
def validAmount (row : List String) : Option PyDec := (rowData row).map Prod.snd

/-- The output line contributed by a kept row: scaled amount at least the
threshold, written as `address,scaledAmount` plus a newline. -/
def keptLine (d : Nat) (mS : Int) (row : List String) : Option String :=
  (rowData row).bind fun p =>
    if mS ≤ scaled_amount p.2 d then
      some (p.1 ++ "," ++ toString (scaled_amount p.2 d) ++ "\n")
    else none

/-- The original amount of a kept row. -/
def keptAmount (d : Nat) (mS : Int) (row : List String) : Option PyDec :=
  (rowData row).bind fun p =>
    if mS ≤ scaled_amount p.2 d then some p.2 else none

/-- The original amount of a dust row: a syntactically valid row whose
scaled amount is strictly below the threshold. -/
def dustAmount (d : Nat) (mS : Int) (row : List String) : Option PyDec :=
  (rowData row).bind fun p =>
    if mS ≤ scaled_amount p.2 d then none else some p.2

/-- Closed form of one step of the row loop, by cases on the row. -/
theorem processRow_eq (d : Nat) (mS : Int) (st : PrepState) (row : List String) :
    processRow d mS st row =
      match rowData row with
      | none => st
      | some (addr, amt) =>
        if mS ≤ scaled_amount amt d then
          ⟨st.writes ++ [addr ++ "," ++ toString (scaled_amount amt d) ++ "\n"],
            ctxAdd st.total ⟨scaled_amount amt d, 0⟩,
            ctxAdd st.totalOriginal amt,
            st.count + 1, st.dustCount, st.dustTotal⟩
        else
          ⟨st.writes, st.total, ctxAdd st.totalOriginal amt,
            st.count, st.dustCount + 1, ctxAdd st.dustTotal amt⟩ := by
  match row with
  | [] => rfl
  | [a] => rfl
  | a :: b :: t =>
    cases h : pyDecimal (pyStrip b) with
    | none => simp [processRow, rowData, h]
    | some amt =>
      by_cases hk : mS ≤ scaled_amount amt d
      · simp [processRow, rowData, h, hk]
      · simp [processRow, rowData, h, hk]

/-- A dust row writes nothing to the output file. -/
theorem processRow_dust {row : List String} {d : Nat} {mS : Int} (st : PrepState)
    (h : dustAmount d mS row ≠ none) :
    (processRow d mS st row).writes = st.writes := by
  rw [processRow_eq]
  cases hr : rowData row with
  | none => rfl
  | some p =>
    rw [dustAmount, hr] at h
    by_cases hk : mS ≤ scaled_amount p.2 d
    · simp [hk] at h
    · obtain ⟨addr, amt⟩ := p
      simp only [if_neg hk]

/-- The writes of the row fold are the writes already made followed by the
kept lines of the rows, in input order. -/
theorem foldl_writes (d : Nat) (mS : Int) (rows : List (List String)) (st : PrepState) :
    (rows.foldl (processRow d mS) st).writes = st.writes ++ rows.filterMap (keptLine d mS) := by
  induction rows generalizing st with
  | nil => simp
  | cons r rows ih =>
    rw [List.foldl_cons, List.filterMap_cons, ih, processRow_eq, keptLine]
    cases hr : rowData r with
    | none => simp
    | some p =>
      obtain ⟨addr, amt⟩ := p
      by_cases hk : mS ≤ scaled_amount amt d
      · simp [hk]
      · simp [hk]

/-- The recipient count of the fold counts the kept rows. -/
theorem foldl_count (d : Nat) (mS : Int) (rows : List (List String)) (st : PrepState) :
    (rows.foldl (processRow d mS) st).count =
      st.count + (rows.filterMap (keptAmount d mS)).length := by
  induction rows generalizing st with
  | nil => simp
  | cons r rows ih =>
    rw [List.foldl_cons, List.filterMap_cons, ih, processRow_eq, keptAmount]
    cases hr : rowData r with
    | none => simp
    | some p =>
      obtain ⟨addr, amt⟩ := p
      by_cases hk : mS ≤ scaled_amount amt d
      · simp [hk]; omega
      · simp [hk]

/-- The dust count of the fold counts the dust rows. -/
theorem foldl_dustCount (d : Nat) (mS : Int) (rows : List (List String)) (st : PrepState) :
    (rows.foldl (processRow d mS) st).dustCount =
      st.dustCount + (rows.filterMap (dustAmount d mS)).length := by
  induction rows generalizing st with
  | nil => simp
  | cons r rows ih =>
    rw [List.foldl_cons, List.filterMap_cons, ih, processRow_eq, dustAmount]
    cases hr : rowData r with
    | none => simp
    | some p =>
      obtain ⟨addr, amt⟩ := p
      by_cases hk : mS ≤ scaled_amount amt d
      · simp [hk]
      · simp [hk]; omega

/-- The `total_original` accumulator of the fold is the context-rounded
accumulation of the amounts of all syntactically valid rows. -/
theorem foldl_totalOriginal (d : Nat) (mS : Int) (rows : List (List String)) (st : PrepState) :
    (rows.foldl (processRow d mS) st).totalOriginal =
      (rows.filterMap validAmount).foldl ctxAdd st.totalOriginal := by
  induction rows generalizing st with
  | nil => simp
  | cons r rows ih =>
    rw [List.foldl_cons, List.filterMap_cons, ih, processRow_eq, validAmount]
    cases hr : rowData r with
    | none => simp
    | some p =>
      obtain ⟨addr, amt⟩ := p
      by_cases hk : mS ≤ scaled_amount amt d
      · simp [hk]
      · simp [hk]

/-- The `dust_total` accumulator of the fold is the context-rounded
accumulation of the amounts of the dust rows. -/
theorem foldl_dustTotal (d : Nat) (mS : Int) (rows : List (List String)) (st : PrepState) :
    (rows.foldl (processRow d mS) st).dustTotal =
      (rows.filterMap (dustAmount d mS)).foldl ctxAdd st.dustTotal := by
  induction rows generalizing st with
  | nil => simp
  | cons r rows ih =>
    rw [List.foldl_cons, List.filterMap_cons, ih, processRow_eq, dustAmount]
    cases hr : rowData r with
    | none => simp
    | some p =>
      obtain ⟨addr, amt⟩ := p
      by_cases hk : mS ≤ scaled_amount amt d
      · simp [hk]
      · simp [hk]

/-! Bounds on the digit count, and exactness of the full context
adjustment inside the normal range. -/

/-- With enough fuel, a number below `10 ^ k` has at most `k` digits. -/
theorem numDigitsAux_le : ∀ (fuel m k : Nat), 1 ≤ k → m < 10 ^ k → numDigitsAux fuel m ≤ k := by
  intro fuel
  induction fuel with
  | zero => intro m k hk _; simpa [numDigitsAux] using hk
  | succ fuel ih =>
    intro m k hk h
    rw [numDigitsAux]
    by_cases hm : m < 10
    · simpa [hm] using hk
    · have hk2 : 2 ≤ k := by
        by_contra hcon
        have hk1 : k = 1 := by omega
        rw [hk1, pow_one] at h
        omega
      have hpow : 10 ^ k = 10 ^ (k - 1) * 10 := by
        conv_lhs => rw [show k = (k - 1) + 1 by omega]
        rw [pow_succ]
      have hdiv : m / 10 < 10 ^ (k - 1) := by
        rw [Nat.div_lt_iff_lt_mul (by norm_num)]
        omega
      have := ih (m / 10) (k - 1) (by omega) hdiv
      rw [if_neg hm]
      omega

/-- A number below `10 ^ k` has at most `k` digits. -/
theorem numDigits_le {m k : Nat} (hk : 1 ≤ k) (h : m < 10 ^ k) : numDigits m ≤ k :=
  numDigitsAux_le m m k hk h

/-- The context adjustment keeps a nonzero result unchanged when its
coefficient fits the precision and its adjusted exponent lies in the
normal range: no rounding, no underflow, no Overflow. -/
theorem decCtxFix_normal {x : PyDec} (h0 : x.coeff ≠ 0) (hf : fitsCtx x.coeff = true)
    (hlo : decEmin ≤ adjustedExp x) (hhi : adjustedExp x ≤ decEmax) :
    decCtxFix x = some x := by
  have hn : numDigits x.coeff.natAbs ≤ decPrec := by
    have hlt : x.coeff.natAbs < 10 ^ 28 := by simpa [fitsCtx] using hf
    exact numDigits_le (by norm_num [decPrec]) hlt
  have h1 : ¬ decEtop < (numDigits x.coeff.natAbs : Int) + x.exp - decPrec := by
    simp only [adjustedExp, decEmax, decEmin, decEtop, decPrec] at hhi ⊢
    omega
  have h2 : ¬ adjustedExp x < decEmin := not_lt.mpr hlo
  have h3 : ¬ x.exp < (numDigits x.coeff.natAbs : Int) + x.exp - decPrec := by
    have : (numDigits x.coeff.natAbs : Int) ≤ (decPrec : Int) := by exact_mod_cast hn
    omega
  rw [decCtxFix, if_neg h0, if_neg h1, if_neg h2, if_neg h3]

/-- The context adjustment keeps a `fixKeeps` result syntactically
unchanged. -/
theorem decCtxFix_keeps {x : PyDec} (h : fixKeeps x = true) : decCtxFix x = some x := by
  by_cases hz : x.coeff = 0
  · rw [fixKeeps, if_pos hz] at h
    have hb := of_decide_eq_true h
    rw [decCtxFix, if_pos hz]
    obtain ⟨c, e⟩ := x
    simp only at hz
    subst hz
    congr 1
    rw [max_eq_left hb.1, min_eq_left hb.2]
  · rw [fixKeeps, if_neg hz, Bool.and_eq_true] at h
    have hP := of_decide_eq_true h.2
    exact decCtxFix_normal hz h.1 hP.1 hP.2

/-- The full addition agrees with the precision-only addition whenever
the exact sum is kept by the context. -/
theorem decAdd_agrees {a b : PyDec} (h : fixKeeps (rawAdd a b) = true) :
    decAdd a b = some (ctxAdd a b) := by
  have h2 := decCtxFix_keeps h
  have h3 : ctxAdd a b = rawAdd a b := by
    apply ctxRound_fits
    rw [fixKeeps] at h
    by_cases hz : (rawAdd a b).coeff = 0
    · simp [fitsCtx, hz]
    · rw [if_neg hz, Bool.and_eq_true] at h
      exact h.1
  rw [decAdd, h2, h3]

/-- Truncation of a zero is zero, whatever its exponent. -/
theorem truncVal_zero (e : Int) : truncVal ⟨0, e⟩ = 0 := by
  rw [truncVal]
  split <;> simp [Int.zero_tdiv]

/-- The value of a decimal with coefficient zero is zero. -/
theorem valD_zero_coeff {x : PyDec} (h : x.coeff = 0) : valD x = 0 := by
  rw [valD]
  split <;> simp [h]

/-- A row without a finite amount contributes no kept line. -/
theorem keptLineRun_none {row : List String} (d : Nat) (mS : Int)
    (h : rowAmountLit row = none ∨ rowAmountLit row = some .special) :
    keptLineRun d mS row = none := by
  rcases h with h | h <;> simp [keptLineRun, h]

/-- A row without a finite amount contributes no kept amount. -/
theorem keptAmountRun_none {row : List String} (d : Nat) (mS : Int)
    (h : rowAmountLit row = none ∨ rowAmountLit row = some .special) :
    keptAmountRun d mS row = none := by
  rcases h with h | h <;> simp [keptAmountRun, h]

/-- A row without a finite amount contributes no dust amount. -/
theorem dustAmountRun_none {row : List String} (d : Nat) (mS : Int)
    (h : rowAmountLit row = none ∨ rowAmountLit row = some .special) :
    dustAmountRun d mS row = none := by
  rcases h with h | h <;> simp [dustAmountRun, h]

/-- A row without a finite amount contributes no finite amount. -/
theorem finiteAmount_none {row : List String}
    (h : rowAmountLit row = none ∨ rowAmountLit row = some .special) :
    finiteAmount row = none := by
  rcases h with h | h <;> simp [finiteAmount, h]

/-- Exhaustive characterization of one iteration of the row loop under
the full model: the row is skipped; or a special amount crashes; or the
`total_original` addition overflows; or the scaling multiplication
overflows; or the row is kept and the `total` addition overflows after
the line was written; or the row is kept and the state advances; or the
row is dust and the `dust_total` addition overflows; or the row is dust
and the state advances. -/
theorem processRowRun_spec (d : Nat) (mS : Int) (st : PrepState) (row : List String) :
    (rowAmountLit row = none ∧ processRowRun d mS st row = .done st)
    ∨ (rowAmountLit row = some .special ∧ processRowRun d mS st row = .crash st.writes)
    ∨ (∃ amt, rowAmountLit row = some (.finite amt) ∧ decAdd st.totalOriginal amt = none ∧
        processRowRun d mS st row = .crash st.writes)
    ∨ (∃ amt tOrig, rowAmountLit row = some (.finite amt) ∧
        decAdd st.totalOriginal amt = some tOrig ∧ decMul amt (pow10Dec d) = none ∧
        processRowRun d mS st row = .crash st.writes)
    ∨ (∃ amt tOrig s, rowAmountLit row = some (.finite amt) ∧
        decAdd st.totalOriginal amt = some tOrig ∧ decMul amt (pow10Dec d) = some s ∧
        mS ≤ truncVal s ∧ decAdd st.total ⟨truncVal s, 0⟩ = none ∧
        keptLineRun d mS row = some (addrOf row ++ "," ++ toString (truncVal s) ++ "\n") ∧
        processRowRun d mS st row =
          .crash (st.writes ++ [addrOf row ++ "," ++ toString (truncVal s) ++ "\n"]))
    ∨ (∃ amt tOrig s t2, rowAmountLit row = some (.finite amt) ∧
        decAdd st.totalOriginal amt = some tOrig ∧ decMul amt (pow10Dec d) = some s ∧
        mS ≤ truncVal s ∧ decAdd st.total ⟨truncVal s, 0⟩ = some t2 ∧
        finiteAmount row = some amt ∧
        keptLineRun d mS row = some (addrOf row ++ "," ++ toString (truncVal s) ++ "\n") ∧
        keptAmountRun d mS row = some amt ∧ dustAmountRun d mS row = none ∧
        processRowRun d mS st row = .done
          ⟨st.writes ++ [addrOf row ++ "," ++ toString (truncVal s) ++ "\n"],
            t2, tOrig, st.count + 1, st.dustCount, st.dustTotal⟩)
    ∨ (∃ amt tOrig s, rowAmountLit row = some (.finite amt) ∧
        decAdd st.totalOriginal amt = some tOrig ∧ decMul amt (pow10Dec d) = some s ∧
        ¬ mS ≤ truncVal s ∧ decAdd st.dustTotal amt = none ∧
        processRowRun d mS st row = .crash st.writes)
    ∨ (∃ amt tOrig s dt, rowAmountLit row = some (.finite amt) ∧
        decAdd st.totalOriginal amt = some tOrig ∧ decMul amt (pow10Dec d) = some s ∧
        ¬ mS ≤ truncVal s ∧ decAdd st.dustTotal amt = some dt ∧
        finiteAmount row = some amt ∧ keptLineRun d mS row = none ∧
        keptAmountRun d mS row = none ∧ dustAmountRun d mS row = some amt ∧
        processRowRun d mS st row = .done
          ⟨st.writes, st.total, tOrig, st.count, st.dustCount + 1, dt⟩) := by
  match row with
  | [] => exact Or.inl ⟨rfl, rfl⟩
  | [a] => exact Or.inl ⟨rfl, rfl⟩
  | a :: b :: t =>
    cases hp : pyDecimalLit (pyStrip b) with
    | none =>
      refine Or.inl ⟨?_, ?_⟩ <;> simp [rowAmountLit, processRowRun, hp]
    | some lit =>
      cases lit with
      | special =>
        refine Or.inr (Or.inl ⟨?_, ?_⟩) <;> simp [rowAmountLit, processRowRun, hp]
      | finite amt =>
        have hra : rowAmountLit (a :: b :: t) = some (.finite amt) := by
          simp [rowAmountLit, hp]
        cases hA : decAdd st.totalOriginal amt with
        | none =>
          refine Or.inr (Or.inr (Or.inl ⟨amt, hra, hA, ?_⟩))
          simp [processRowRun, hp, hA]
        | some tOrig =>
          cases hM : decMul amt (pow10Dec d) with
          | none =>
            refine Or.inr (Or.inr (Or.inr (Or.inl ⟨amt, tOrig, hra, hA, hM, ?_⟩)))
            simp [processRowRun, hp, hA, hM]
          | some s =>
            by_cases hK : mS ≤ truncVal s
            · cases hT : decAdd st.total ⟨truncVal s, 0⟩ with
              | none =>
                refine Or.inr (Or.inr (Or.inr (Or.inr (Or.inl
                  ⟨amt, tOrig, s, hra, hA, hM, hK, hT, ?_, ?_⟩))))
                · simp [keptLineRun, hra, hM, hK]
                · simp [processRowRun, addrOf, hp, hA, hM, hK, hT]
              | some t2 =>
                refine Or.inr (Or.inr (Or.inr (Or.inr (Or.inr (Or.inl
                  ⟨amt, tOrig, s, t2, hra, hA, hM, hK, hT, ?_, ?_, ?_, ?_, ?_⟩)))))
                · simp [finiteAmount, hra]
                · simp [keptLineRun, hra, hM, hK]
                · simp [keptAmountRun, hra, hM, hK]
                · simp [dustAmountRun, hra, hM, hK]
                · simp [processRowRun, addrOf, hp, hA, hM, hK, hT]
            · cases hD : decAdd st.dustTotal amt with
              | none =>
                refine Or.inr (Or.inr (Or.inr (Or.inr (Or.inr (Or.inr (Or.inl
                  ⟨amt, tOrig, s, hra, hA, hM, hK, hD, ?_⟩))))))
                simp [processRowRun, hp, hA, hM, hK, hD]
              | some dt =>
                refine Or.inr (Or.inr (Or.inr (Or.inr (Or.inr (Or.inr (Or.inr
                  ⟨amt, tOrig, s, dt, hra, hA, hM, hK, hD, ?_, ?_, ?_, ?_, ?_⟩))))))
                · simp [finiteAmount, hra]
                · simp [keptLineRun, hra, hM, hK]
                · simp [keptAmountRun, hra, hM, hK]
                · simp [dustAmountRun, hra, hM, hK]
                · simp [processRowRun, hp, hA, hM, hK, hD]

/-- A crashed run ignores the remaining rows. -/
theorem foldl_stepRun_crash (d : Nat) (mS : Int) (w : List String) :
    ∀ rows : List (List String), rows.foldl (stepRun d mS) (.crash w) = .crash w := by
  intro rows
  induction rows with
  | nil => rfl
  | cons r rows ih => rw [List.foldl_cons]; exact ih

/-- Writes of the row fold under the full model: a completed fold wrote
exactly the kept lines in order, and a crashed fold wrote the kept lines
of a prefix of the rows, in order. -/
theorem runFold_writes (d : Nat) (mS : Int) (rows : List (List String)) :
    ∀ st : PrepState,
      (∀ st', rows.foldl (stepRun d mS) (.done st) = .done st' →
        st'.writes = st.writes ++ rows.filterMap (keptLineRun d mS)) ∧
      (∀ w, rows.foldl (stepRun d mS) (.done st) = .crash w →
        ∃ n, w = st.writes ++ (rows.take n).filterMap (keptLineRun d mS)) := by
  induction rows with
  | nil =>
    intro st
    refine ⟨fun st' h => ?_, fun w h => ?_⟩
    · rw [List.foldl_nil] at h
      cases h
      simp
    · rw [List.foldl_nil] at h
      exact RunResult.noConfusion h
  | cons r rows ih =>
    intro st
    have hstep : (r :: rows).foldl (stepRun d mS) (.done st) =
        rows.foldl (stepRun d mS) (processRowRun d mS st r) := rfl
    rcases processRowRun_spec d mS st r with
      ⟨hra, hrow⟩ | ⟨hra, hrow⟩ | ⟨amt, hra, hA, hrow⟩ | ⟨amt, tOrig, hra, hA, hM, hrow⟩ |
      ⟨amt, tOrig, s, hra, hA, hM, hK, hT, hkl, hrow⟩ |
      ⟨amt, tOrig, s, t2, hra, hA, hM, hK, hT, hfin, hkl, hka, hda, hrow⟩ |
      ⟨amt, tOrig, s, hra, hA, hM, hK, hD, hrow⟩ |
      ⟨amt, tOrig, s, dt, hra, hA, hM, hK, hD, hfin, hkl, hka, hda, hrow⟩
    · have hkl := keptLineRun_none d mS (Or.inl hra)
      refine ⟨fun st' h => ?_, fun w h => ?_⟩
      · rw [hstep, hrow] at h
        have := (ih st).1 st' h
        simpa [List.filterMap_cons, hkl] using this
      · rw [hstep, hrow] at h
        obtain ⟨n, hn⟩ := (ih st).2 w h
        exact ⟨n + 1, by simpa [List.take_succ_cons, List.filterMap_cons, hkl] using hn⟩
    · refine ⟨fun st' h => ?_, fun w h => ?_⟩
      · rw [hstep, hrow, foldl_stepRun_crash] at h
        exact RunResult.noConfusion h
      · rw [hstep, hrow, foldl_stepRun_crash] at h
        have hw : st.writes = w := by simpa using h
        exact ⟨0, by simp [← hw]⟩
    · refine ⟨fun st' h => ?_, fun w h => ?_⟩
      · rw [hstep, hrow, foldl_stepRun_crash] at h
        exact RunResult.noConfusion h
      · rw [hstep, hrow, foldl_stepRun_crash] at h
        have hw : st.writes = w := by simpa using h
        exact ⟨0, by simp [← hw]⟩
    · refine ⟨fun st' h => ?_, fun w h => ?_⟩
      · rw [hstep, hrow, foldl_stepRun_crash] at h
        exact RunResult.noConfusion h
      · rw [hstep, hrow, foldl_stepRun_crash] at h
        have hw : st.writes = w := by simpa using h
        exact ⟨0, by simp [← hw]⟩
    · refine ⟨fun st' h => ?_, fun w h => ?_⟩
      · rw [hstep, hrow, foldl_stepRun_crash] at h
        exact RunResult.noConfusion h
      · rw [hstep, hrow, foldl_stepRun_crash] at h
        have hw : st.writes ++ [addrOf r ++ "," ++ toString (truncVal s) ++ "\n"] = w := by
          simpa using h
        refine ⟨1, ?_⟩
        rw [← hw]
        simp [List.filterMap_cons, hkl]
    · refine ⟨fun st' h => ?_, fun w h => ?_⟩
      · rw [hstep, hrow] at h
        have := (ih _).1 st' h
        rw [List.filterMap_cons, hkl]
        simpa [List.append_assoc] using this
      · rw [hstep, hrow] at h
        obtain ⟨n, hn⟩ := (ih _).2 w h
        refine ⟨n + 1, ?_⟩
        rw [List.take_succ_cons, List.filterMap_cons, hkl]
        simpa [List.append_assoc] using hn
    · refine ⟨fun st' h => ?_, fun w h => ?_⟩
      · rw [hstep, hrow, foldl_stepRun_crash] at h
        exact RunResult.noConfusion h
      · rw [hstep, hrow, foldl_stepRun_crash] at h
        have hw : st.writes = w := by simpa using h
        exact ⟨0, by simp [← hw]⟩
    · refine ⟨fun st' h => ?_, fun w h => ?_⟩
      · rw [hstep, hrow] at h
        have := (ih _).1 st' h
        simpa [List.filterMap_cons, hkl] using this
      · rw [hstep, hrow] at h
        obtain ⟨n, hn⟩ := (ih _).2 w h
        exact ⟨n + 1, by simpa [List.take_succ_cons, List.filterMap_cons, hkl] using hn⟩

/-- The `total_original` accumulator of a completed fold is the exact sum
of the finite amounts when every intermediate sum is kept by the
context. -/
theorem runFold_totalOriginal (d : Nat) (mS : Int) (rows : List (List String)) :
    ∀ st st', rows.foldl (stepRun d mS) (.done st) = .done st' →
      foldKeeps st.totalOriginal (rows.filterMap finiteAmount) = true →
      valD st'.totalOriginal =
        valD st.totalOriginal + ((rows.filterMap finiteAmount).map valD).sum := by
  induction rows with
  | nil =>
    intro st st' h _
    rw [List.foldl_nil] at h
    cases h
    simp
  | cons r rows ih =>
    intro st st' h hfit
    have hstep : (r :: rows).foldl (stepRun d mS) (.done st) =
        rows.foldl (stepRun d mS) (processRowRun d mS st r) := rfl
    rw [hstep] at h
    rcases processRowRun_spec d mS st r with
      ⟨hra, hrow⟩ | ⟨hra, hrow⟩ | ⟨amt, hra, hA, hrow⟩ | ⟨amt, tOrig, hra, hA, hM, hrow⟩ |
      ⟨amt, tOrig, s, hra, hA, hM, hK, hT, hkl, hrow⟩ |
      ⟨amt, tOrig, s, t2, hra, hA, hM, hK, hT, hfin, hkl, hka, hda, hrow⟩ |
      ⟨amt, tOrig, s, hra, hA, hM, hK, hD, hrow⟩ |
      ⟨amt, tOrig, s, dt, hra, hA, hM, hK, hD, hfin, hkl, hka, hda, hrow⟩
    · have hfin := finiteAmount_none (Or.inl hra)
      rw [hrow] at h
      have hfit2 : foldKeeps st.totalOriginal (rows.filterMap finiteAmount) = true := by
        simpa [List.filterMap_cons, hfin] using hfit
      have := ih st st' h hfit2
      simpa [List.filterMap_cons, hfin] using this
    · rw [hrow, foldl_stepRun_crash] at h
      exact RunResult.noConfusion h
    · rw [hrow, foldl_stepRun_crash] at h
      exact RunResult.noConfusion h
    · rw [hrow, foldl_stepRun_crash] at h
      exact RunResult.noConfusion h
    · rw [hrow, foldl_stepRun_crash] at h
      exact RunResult.noConfusion h
    · rw [hrow] at h
      rw [List.filterMap_cons, hfin, foldKeeps, Bool.and_eq_true] at hfit
      have hAr : decAdd st.totalOriginal amt = some (rawAdd st.totalOriginal amt) :=
        decCtxFix_keeps hfit.1
      obtain rfl : tOrig = rawAdd st.totalOriginal amt :=
        Option.some.inj (hA.symm.trans hAr)
      have hmain := ih _ st' h hfit.2
      rw [List.filterMap_cons, hfin, List.map_cons, List.sum_cons]
      rw [hmain]
      show valD (rawAdd st.totalOriginal amt) + _ = _
      rw [valD_rawAdd]
      ring
    · rw [hrow, foldl_stepRun_crash] at h
      exact RunResult.noConfusion h
    · rw [hrow] at h
      rw [List.filterMap_cons, hfin, foldKeeps, Bool.and_eq_true] at hfit
      have hAr : decAdd st.totalOriginal amt = some (rawAdd st.totalOriginal amt) :=
        decCtxFix_keeps hfit.1
      obtain rfl : tOrig = rawAdd st.totalOriginal amt :=
        Option.some.inj (hA.symm.trans hAr)
      have hmain := ih _ st' h hfit.2
      rw [List.filterMap_cons, hfin, List.map_cons, List.sum_cons]
      rw [hmain]
      show valD (rawAdd st.totalOriginal amt) + _ = _
      rw [valD_rawAdd]
      ring

/-- The `dust_total` accumulator of a completed fold is the exact sum of
the dust amounts when every intermediate dust sum is kept by the
context. -/
theorem runFold_dustTotal (d : Nat) (mS : Int) (rows : List (List String)) :
    ∀ st st', rows.foldl (stepRun d mS) (.done st) = .done st' →
      foldKeeps st.dustTotal (rows.filterMap (dustAmountRun d mS)) = true →
      valD st'.dustTotal =
        valD st.dustTotal + ((rows.filterMap (dustAmountRun d mS)).map valD).sum := by
  induction rows with
  | nil =>
    intro st st' h _
    rw [List.foldl_nil] at h
    cases h
    simp
  | cons r rows ih =>
    intro st st' h hfit
    have hstep : (r :: rows).foldl (stepRun d mS) (.done st) =
        rows.foldl (stepRun d mS) (processRowRun d mS st r) := rfl
    rw [hstep] at h
    rcases processRowRun_spec d mS st r with
      ⟨hra, hrow⟩ | ⟨hra, hrow⟩ | ⟨amt, hra, hA, hrow⟩ | ⟨amt, tOrig, hra, hA, hM, hrow⟩ |
      ⟨amt, tOrig, s, hra, hA, hM, hK, hT, hkl, hrow⟩ |
      ⟨amt, tOrig, s, t2, hra, hA, hM, hK, hT, hfin, hkl, hka, hda, hrow⟩ |
      ⟨amt, tOrig, s, hra, hA, hM, hK, hD, hrow⟩ |
      ⟨amt, tOrig, s, dt, hra, hA, hM, hK, hD, hfin, hkl, hka, hda, hrow⟩
    · have hda := dustAmountRun_none d mS (Or.inl hra)
      rw [hrow] at h
      have hfit2 : foldKeeps st.dustTotal (rows.filterMap (dustAmountRun d mS)) = true := by
        simpa [List.filterMap_cons, hda] using hfit
      have := ih st st' h hfit2
      simpa [List.filterMap_cons, hda] using this
    · rw [hrow, foldl_stepRun_crash] at h
      exact RunResult.noConfusion h
    · rw [hrow, foldl_stepRun_crash] at h
      exact RunResult.noConfusion h
    · rw [hrow, foldl_stepRun_crash] at h
      exact RunResult.noConfusion h
    · rw [hrow, foldl_stepRun_crash] at h
      exact RunResult.noConfusion h
    · rw [hrow] at h
      have hfit2 : foldKeeps st.dustTotal (rows.filterMap (dustAmountRun d mS)) = true := by
        simpa [List.filterMap_cons, hda] using hfit
      have := ih _ st' h hfit2
      simpa [List.filterMap_cons, hda] using this
    · rw [hrow, foldl_stepRun_crash] at h
      exact RunResult.noConfusion h
    · rw [hrow] at h
      rw [List.filterMap_cons, hda, foldKeeps, Bool.and_eq_true] at hfit
      have hDr : decAdd st.dustTotal amt = some (rawAdd st.dustTotal amt) :=
        decCtxFix_keeps hfit.1
      obtain rfl : dt = rawAdd st.dustTotal amt :=
        Option.some.inj (hD.symm.trans hDr)
      have hmain := ih _ st' h hfit.2
      rw [List.filterMap_cons, hda, List.map_cons, List.sum_cons]
      rw [hmain]
      show valD (rawAdd st.dustTotal amt) + _ = _
      rw [valD_rawAdd]
      ring

/-- In a completed fold, the finite amounts split into the kept and the
dust amounts, because every processed finite row passed its scaling. -/
theorem runFold_split (d : Nat) (mS : Int) (rows : List (List String)) :
    ∀ st st', rows.foldl (stepRun d mS) (.done st) = .done st' →
      ((rows.filterMap finiteAmount).map valD).sum =
        ((rows.filterMap (keptAmountRun d mS)).map valD).sum +
          ((rows.filterMap (dustAmountRun d mS)).map valD).sum := by
  induction rows with
  | nil => intro st st' _; simp
  | cons r rows ih =>
    intro st st' h
    have hstep : (r :: rows).foldl (stepRun d mS) (.done st) =
        rows.foldl (stepRun d mS) (processRowRun d mS st r) := rfl
    rw [hstep] at h
    rcases processRowRun_spec d mS st r with
      ⟨hra, hrow⟩ | ⟨hra, hrow⟩ | ⟨amt, hra, hA, hrow⟩ | ⟨amt, tOrig, hra, hA, hM, hrow⟩ |
      ⟨amt, tOrig, s, hra, hA, hM, hK, hT, hkl, hrow⟩ |
      ⟨amt, tOrig, s, t2, hra, hA, hM, hK, hT, hfin, hkl, hka, hda, hrow⟩ |
      ⟨amt, tOrig, s, hra, hA, hM, hK, hD, hrow⟩ |
      ⟨amt, tOrig, s, dt, hra, hA, hM, hK, hD, hfin, hkl, hka, hda, hrow⟩
    · have hfin := finiteAmount_none (Or.inl hra)
      have hka := keptAmountRun_none d mS (Or.inl hra)
      have hda := dustAmountRun_none d mS (Or.inl hra)
      rw [hrow] at h
      have := ih st st' h
      simpa [List.filterMap_cons, hfin, hka, hda] using this
    · rw [hrow, foldl_stepRun_crash] at h
      exact RunResult.noConfusion h
    · rw [hrow, foldl_stepRun_crash] at h
      exact RunResult.noConfusion h
    · rw [hrow, foldl_stepRun_crash] at h
      exact RunResult.noConfusion h
    · rw [hrow, foldl_stepRun_crash] at h
      exact RunResult.noConfusion h
    · rw [hrow] at h
      have := ih _ st' h
      rw [List.filterMap_cons, hfin, List.filterMap_cons, hka, List.filterMap_cons, hda,
        List.map_cons, List.sum_cons, List.map_cons, List.sum_cons, this]
      ring
    · rw [hrow, foldl_stepRun_crash] at h
      exact RunResult.noConfusion h
    · rw [hrow] at h
      have := ih _ st' h
      rw [List.filterMap_cons, hfin, List.filterMap_cons, hka, List.filterMap_cons, hda,
        List.map_cons, List.sum_cons, List.map_cons, List.sum_cons, this]
      ring

/-- Each syntactically valid row is kept or dust, never both, so the two
selections split the valid rows. -/
theorem kept_dust_length (d : Nat) (mS : Int) (rows : List (List String)) :
    (rows.filterMap (keptAmount d mS)).length + (rows.filterMap (dustAmount d mS)).length =
      (rows.filter (fun r => (validAmount r).isSome)).length := by
  induction rows with
  | nil => simp
  | cons r rows ih =>
    rw [List.filterMap_cons, List.filterMap_cons, List.filter_cons, keptAmount, dustAmount,
      validAmount]
    cases hr : rowData r with
    | none => simpa using ih
    | some p =>
      by_cases hk : mS ≤ scaled_amount p.2 d
      · simp [hk]; omega
      · simp [hk]; omega

/-- The exact sum of the valid amounts splits into the kept and the dust
parts. -/
theorem kept_dust_sum (d : Nat) (mS : Int) (rows : List (List String)) :
    (((rows.filterMap validAmount).map valD).sum : ℚ) =
      ((rows.filterMap (keptAmount d mS)).map valD).sum +
        ((rows.filterMap (dustAmount d mS)).map valD).sum := by
  induction rows with
  | nil => simp
  | cons r rows ih =>
    rw [List.filterMap_cons, List.filterMap_cons, List.filterMap_cons, keptAmount, dustAmount,
      validAmount]
    cases hr : rowData r with
    | none => simpa using ih
    | some p =>
      by_cases hk : mS ≤ scaled_amount p.2 d
      · simp only [hk, if_true, Option.some_bind, Option.map_some', List.map_cons,
          List.sum_cons, ih]
        ring
      · simp only [hk, if_false, Option.some_bind, Option.map_some', List.map_cons,
          List.sum_cons, ih]
        ring

/-! Characterization of the coverage fold. -/

/-- The missing-coverage entry contributed by one line of tool output, if
any: a matched line with `total > covered`, recorded with its deficit. -/
def lineEntry (l : String) : Option (String × Nat × Nat × Nat) :=
  (lineMatch l).bind fun p =>
    if 0 < p.2 - p.1 then some (pyStrip l, p.1, p.2, p.2 - p.1) else none

/-- The covered counter accumulates the first parenthesised number of each
matched line. -/
theorem covRun_covered (lines : List String) (st : CovState) :
    (lines.foldl covStep st).covered =
      st.covered + (lines.filterMap (fun l => (lineMatch l).map Prod.fst)).sum := by
  induction lines generalizing st with
  | nil => simp
  | cons l lines ih =>
    rw [List.foldl_cons, List.filterMap_cons, ih]
    cases hl : lineMatch l with
    | none => simp [covStep, hl]
    | some p =>
      obtain ⟨c, t⟩ := p
      by_cases hm : 0 < t - c
      · simp [covStep, hl, hm]; omega
      · simp [covStep, hl, hm]; omega

/-- The total counter accumulates the second parenthesised number of each
matched line. -/
theorem covRun_total (lines : List String) (st : CovState) :
    (lines.foldl covStep st).total =
      st.total + (lines.filterMap (fun l => (lineMatch l).map Prod.snd)).sum := by
  induction lines generalizing st with
  | nil => simp
  | cons l lines ih =>
    rw [List.foldl_cons, List.filterMap_cons, ih]
    cases hl : lineMatch l with
    | none => simp [covStep, hl]
    | some p =>
      obtain ⟨c, t⟩ := p
      by_cases hm : 0 < t - c
      · simp [covStep, hl, hm]; omega
      · simp [covStep, hl, hm]; omega

/-- The files list records exactly the matched lines with a positive
deficit, in order. -/
theorem covRun_files (lines : List String) (st : CovState) :
    (lines.foldl covStep st).files = st.files ++ lines.filterMap lineEntry := by
  induction lines generalizing st with
  | nil => simp
  | cons l lines ih =>
    rw [List.foldl_cons, List.filterMap_cons, ih, lineEntry]
    cases hl : lineMatch l with
    | none => simp [covStep, hl]
    | some p =>
      obtain ⟨c, t⟩ := p
      by_cases hm : 0 < t - c
      · have hm2 : c < t := by omega
        simp [covStep, hl, hm, hm2]
      · have hm2 : ¬c < t := by omega
        simp [covStep, hl, hm, hm2]

/-! The ten claims. -/

/-- C2 (corrected): the coverage script exits with status 0 exactly when
the computed missing count is 0 or no line was counted at all; in the
latter case (`total = 0`, unparseable output) the final block is skipped
and the process still finishes with status 0, not 1 as claimed. -/
theorem claim2_exit_status (out : List String) :
    covExit out =
      if (covRun out).total = 0 ∨ (covRun out).covered = (covRun out).total then 0 else 1 := by
  unfold covExit
  rcases Nat.eq_zero_or_pos (covRun out).total with h | h
  · simp [h]
  · have h0 : ¬(covRun out).total = 0 := by omega
    by_cases he : (covRun out).covered = (covRun out).total
    · have : ((covRun out).total : ℤ) - ((covRun out).covered : ℤ) = 0 := by omega
      simp [h, h0, he, this]
    · have : ¬((covRun out).total : ℤ) - ((covRun out).covered : ℤ) = 0 := by omega
      simp [h, h0, he, this]

/-- C2 counterexample: on tool output in which no line matches, the total
parsed is 0 and the script exits with status 0, not 1 as the claim
states for the unparseable case. -/
theorem claim2_counterexample :
    (covRun ["Compiling...", "No coverage data"]).total = 0 ∧
    covExit ["Compiling...", "No coverage data"] ≠ 1 := by decide

/-- C5: the coverage summarizer accumulates covered and total exactly over
the lines that contain the `| src/` marker and match the percentage
pattern, ignores all other lines, records each matched line with
`total > covered` as a missing-coverage entry with deficit
`total - covered`, and on the two example lines aggregates 13 of 15
covered with 2 missing and exit status 1. -/
theorem claim5_cov_aggregation :
    (∀ out : List String,
        (covRun out).covered = (out.filterMap (fun l => (lineMatch l).map Prod.fst)).sum ∧
        (covRun out).total = (out.filterMap (fun l => (lineMatch l).map Prod.snd)).sum ∧
        (covRun out).files = out.filterMap lineEntry) ∧
    (covRun ["| src/A.sol | 80.00% (8/10) |", "| src/B.sol | 100.00% (5/5) |"]).covered = 13 ∧
    (covRun ["| src/A.sol | 80.00% (8/10) |", "| src/B.sol | 100.00% (5/5) |"]).total = 15 ∧
    (covRun ["| src/A.sol | 80.00% (8/10) |", "| src/B.sol | 100.00% (5/5) |"]).total -
      (covRun ["| src/A.sol | 80.00% (8/10) |", "| src/B.sol | 100.00% (5/5) |"]).covered = 2 ∧
    covExit ["| src/A.sol | 80.00% (8/10) |", "| src/B.sol | 100.00% (5/5) |"] = 1 := by
  refine ⟨fun out => ⟨?_, ?_, ?_⟩, by decide, by decide, by decide, by decide⟩
  · simpa using covRun_covered out ⟨0, 0, []⟩
  · simpa using covRun_total out ⟨0, 0, []⟩
  · simpa using covRun_files out ⟨0, 0, []⟩

/-- C6: the printed recipient count plus the printed dust count equals the
number of syntactically valid rows; rows skipped for short length or
parse failure contribute to neither. -/
theorem claim6_count_partition (rows : List (List String)) (d : Nat) (ma : Option PyDec) :
    (prepare_csv rows d ma).count + (prepare_csv rows d ma).dustCount =
      (rows.filter (fun r => (validAmount r).isSome)).length := by
  unfold prepare_csv
  rw [foldl_count, foldl_dustCount]
  have := kept_dust_length d (minScaledOf (ma.getD defaultMinAmount) d) rows
  simpa [initState] using this

/-- C9 (corrected): under the full model the output write stream of a
completed run is exactly the kept rows' lines `address,scaledAmount`
plus a newline, in input order, with nothing else written; a crashed
run (a NaN, sNaN or Infinity amount, or a context Overflow, all raising
uncaught exceptions) leaves the kept lines of a prefix of the rows,
still in order and format.  The claim as stated fails because the
`Decimal` constructor accepts NaN, so a `nan` amount crashes the loop at
`int(...)` and later kept rows are never written. -/
theorem claim9_output_writes (rows : List (List String)) (d : Nat) (ma : Option PyLit)
    (mS : Int) (hms : minScaledRun ma d = some mS) :
    (∀ st, prepare_csv_run rows d ma = .done st →
      st.writes = rows.filterMap (keptLineRun d mS)) ∧
    (∀ w, prepare_csv_run rows d ma = .crash w →
      ∃ n, w = (rows.take n).filterMap (keptLineRun d mS)) := by
  constructor
  · intro st h
    rw [prepare_csv_run, hms] at h
    have := (runFold_writes d mS rows initState).1 st h
    simpa [initState] using this
  · intro w h
    rw [prepare_csv_run, hms] at h
    obtain ⟨n, hn⟩ := (runFold_writes d mS rows initState).2 w h
    exact ⟨n, by simpa [initState] using hn⟩

/-- C9 witness: a completed one-row run writes exactly the kept line of
that row. -/
theorem claim9_witness :
    (⟨["a,2\n"], ⟨2, 0⟩, ⟨2, 0⟩, 1, 0, ⟨0, 0⟩⟩ : PrepState).writes =
      ([["a", "2"]] : List (List String)).filterMap (keptLineRun 0 0) :=
  (claim9_output_writes [["a", "2"]] 0 none 0 (by decide)).1 _ (by decide)

/-- C9 counterexample: on the input rows `a,nan` and `b,5` the constructor
accepts `nan`, the loop crashes at `int(...)` before writing anything,
and the kept row `b` is never written, while the claim as stated demands
the output line `b,5`. -/
theorem claim9_counterexample :
    prepare_csv_run [["a", "nan"], ["b", "5"]] 0 none = .crash [] ∧
    ([["a", "nan"], ["b", "5"]] : List (List String)).filterMap (keptLineRun 0 0) =
      ["b,5\n"] :=
  ⟨by decide, by decide⟩

/-- C1 (corrected): for a row with a nonnegative decimal amount whose
exact product with `10 ^ decimals` fits in the 28 significant digits of
the default decimal context and stays inside the normal exponent range
[Emin, Emax] (or is zero), the computed scaled amount is exactly the
floor of `a * 10 ^ d`, never rounded up.  The nonnegativity restriction
is forced because ROUND_DOWN truncates toward zero, which is not the
floor on negative values; the precision restriction because a product
beyond 28 significant digits is rounded half-even before truncation;
and the exponent restriction because a product with adjusted exponent
above Emax raises trapped Overflow at line 127 and the run aborts
without computing any scaled amount. -/
theorem claim1_scaled_amount_floor (a : PyDec) (d : Nat)
    (h0 : 0 ≤ a.coeff) (hf : fitsCtx (a.coeff * (10 : Int) ^ d) = true)
    (hrange : a.coeff = 0 ∨
      (decEmin ≤ adjustedExp (rawMul a (pow10Dec d)) ∧
        adjustedExp (rawMul a (pow10Dec d)) ≤ decEmax)) :
    scaled_amount_run a d = some ⌊valD a * (10 : ℚ) ^ d⌋ := by
  by_cases hz : a.coeff = 0
  · have hc : (rawMul a (pow10Dec d)).coeff = 0 := by simp [rawMul, pow10Dec, hz]
    have hval : valD a = 0 := valD_zero_coeff hz
    rw [scaled_amount_run, decMul, decCtxFix, if_pos hc, Option.map_some']
    rw [truncVal_zero, hval]
    simp
  · have hr : decEmin ≤ adjustedExp (rawMul a (pow10Dec d)) ∧
        adjustedExp (rawMul a (pow10Dec d)) ≤ decEmax := by
      rcases hrange with h | h
      · exact absurd h hz
      · exact h
    have hc0 : (rawMul a (pow10Dec d)).coeff ≠ 0 := by
      show a.coeff * (10 : Int) ^ d ≠ 0
      exact mul_ne_zero hz (by positivity)
    have hfc : fitsCtx ((rawMul a (pow10Dec d)).coeff) = true := hf
    have hnn : 0 ≤ (rawMul a (pow10Dec d)).coeff := by
      show 0 ≤ a.coeff * (10 : Int) ^ d
      exact mul_nonneg h0 (by positivity)
    rw [scaled_amount_run, decMul, decCtxFix_normal hc0 hfc hr.1 hr.2, Option.map_some']
    rw [truncVal_eq_floor hnn, valD_rawMul, valD_pow10]

/-- C1 witness: the amount 1.999995 at 5 decimals satisfies the
hypotheses, equals the floor, and that floor is 199999, not 200000. -/
theorem claim1_witness :
    scaled_amount_run ⟨1999995, -6⟩ 5 = some ⌊valD ⟨1999995, -6⟩ * (10 : ℚ) ^ (5 : ℕ)⌋ ∧
    scaled_amount_run ⟨1999995, -6⟩ 5 = some 199999 :=
  ⟨claim1_scaled_amount_floor ⟨1999995, -6⟩ 5 (by decide) (by decide) (Or.inr (by decide)),
    by decide⟩

/-- C1 counterexample: the claim fails as stated.  The amount -1.5 at 0
decimals is scaled to -1 (truncation toward zero) while the claimed
floor is -2; and the 29-digit amount 1.9999999999999999999999999999 at 0
decimals is scaled to 2 (the context rounds the product up to 28 digits
before truncation) while the claimed floor is 1. -/
theorem claim1_counterexample :
    scaled_amount_run ⟨-15, -1⟩ 0 ≠ some ⌊valD ⟨-15, -1⟩ * (10 : ℚ) ^ (0 : ℕ)⌋ ∧
    scaled_amount_run ⟨19999999999999999999999999999, -28⟩ 0 ≠
      some ⌊valD ⟨19999999999999999999999999999, -28⟩ * (10 : ℚ) ^ (0 : ℕ)⌋ := by
  constructor
  · have h : ⌊valD ⟨-15, -1⟩ * (10 : ℚ) ^ (0 : ℕ)⌋ = -2 := by norm_num [valD]
    rw [h]; decide
  · have h2 : scaled_amount_run ⟨19999999999999999999999999999, -28⟩ 0 = some 2 := by decide
    have hlt : ⌊valD ⟨19999999999999999999999999999, -28⟩ * (10 : ℚ) ^ (0 : ℕ)⌋ < 2 := by
      rw [Int.floor_lt]
      simp [valD]
      norm_num
    intro hEq
    rw [h2] at hEq
    have := Option.some.inj hEq
    omega

/-- C3 (corrected): a dust row (finite amount, successful scaling,
truncation strictly below the threshold) never changes the write stream,
even when its own dust addition overflows and crashes the run; and in a
completed run the dust-total accumulator (printed at 10 decimal places)
equals the exact sum of the dust amounts whenever the dust accumulation
is kept by the context (at most 28 significant digits and inside the
normal exponent range at every step).  Without the latter restriction
the accumulator is the context-adjusted accumulation, which rounding or
the subnormal flush can move away from the exact sum. -/
theorem claim3_dust_rows :
    (∀ (d : Nat) (mS : Int) (st : PrepState) (row : List String),
        dustAmountRun d mS row ≠ none →
        runWrites (processRowRun d mS st row) = st.writes) ∧
    (∀ (rows : List (List String)) (d : Nat) (ma : Option PyLit) (mS : Int) (st : PrepState),
        minScaledRun ma d = some mS →
        prepare_csv_run rows d ma = .done st →
        foldKeeps zeroDec (rows.filterMap (dustAmountRun d mS)) = true →
        valD st.dustTotal = ((rows.filterMap (dustAmountRun d mS)).map valD).sum) := by
  constructor
  · intro d mS st row hd
    rcases processRowRun_spec d mS st row with
      ⟨hra, hrow⟩ | ⟨hra, hrow⟩ | ⟨amt, hra, hA, hrow⟩ | ⟨amt, tOrig, hra, hA, hM, hrow⟩ |
      ⟨amt, tOrig, s, hra, hA, hM, hK, hT, hkl, hrow⟩ |
      ⟨amt, tOrig, s, t2, hra, hA, hM, hK, hT, hfin, hkl, hka, hda, hrow⟩ |
      ⟨amt, tOrig, s, hra, hA, hM, hK, hD, hrow⟩ |
      ⟨amt, tOrig, s, dt, hra, hA, hM, hK, hD, hfin, hkl, hka, hda, hrow⟩
    · exact absurd (dustAmountRun_none d mS (Or.inl hra)) hd
    · exact absurd (dustAmountRun_none d mS (Or.inr hra)) hd
    · rw [hrow]; rfl
    · rw [hrow]; rfl
    · exact absurd (by simp [dustAmountRun, hra, hM, hK]) hd
    · exact absurd hda hd
    · rw [hrow]; rfl
    · rw [hrow]; rfl
  · intro rows d ma mS st hms hrun hfit
    rw [prepare_csv_run, hms] at hrun
    have := runFold_dustTotal d mS rows initState st hrun (by simpa [initState] using hfit)
    simpa [initState, valD_zeroDec] using this

/-- C3 witness: a concrete dust row leaves the write stream unchanged,
and on a completed one-row run the dust total is the exact sum of the
dust amounts. -/
theorem claim3_witness :
    runWrites (processRowRun 18 (10 ^ 13) initState ["a", "0.000001"]) = initState.writes ∧
    valD ((⟨[], ⟨0, 0⟩, ⟨1, -6⟩, 0, 1, ⟨1, -6⟩⟩ : PrepState).dustTotal) =
      ((([["a", "0.000001"]] : List (List String)).filterMap
        (dustAmountRun 18 (10 ^ 13))).map valD).sum :=
  ⟨claim3_dust_rows.1 18 (10 ^ 13) initState ["a", "0.000001"] (by decide),
    claim3_dust_rows.2 [["a", "0.000001"]] 18 none (10 ^ 13) _ (by decide) (by decide)
      (by decide)⟩

/-- C3 counterexample: with threshold 10 ^ 60 both rows of the input
`a,1E+28` and `b,1` are dust and the run completes, but the printed
dust-total accumulator is 10 ^ 28 (the 29-digit intermediate sum is
rounded by the context), while the exact sum of the dust amounts is
10 ^ 28 + 1. -/
theorem claim3_counterexample :
    prepare_csv_run [["a", "1E+28"], ["b", "1"]] 0 (some (.finite ⟨1, 60⟩)) =
      .done ⟨[], ⟨0, 0⟩, ⟨10 ^ 27, 1⟩, 0, 2, ⟨10 ^ 27, 1⟩⟩ ∧
    valD (⟨10 ^ 27, 1⟩ : PyDec) ≠
      ((([["a", "1E+28"], ["b", "1"]] : List (List String)).filterMap
        (dustAmountRun 0 (10 ^ 60))).map valD).sum := by
  constructor
  · decide
  · have h2 : ([["a", "1E+28"], ["b", "1"]] : List (List String)).filterMap
        (dustAmountRun 0 (10 ^ 60)) = [⟨1, 28⟩, ⟨1, 0⟩] := by decide
    rw [h2]
    simp [valD]
    norm_num

/-- C10 (corrected): in a completed run the original-total accumulator
(printed at 6 decimal places) equals the exact sum of the amounts of all
rows whose amount parses to a finite decimal, and equals the kept sum
plus the dust total, whenever both accumulations are kept by the context
(at most 28 significant digits and inside the normal exponent range at
every step).  Without that restriction the accumulator is the
context-adjusted accumulation, and a run with a NaN/Infinity amount or
an Overflow aborts before printing anything. -/
theorem claim10_total_original (rows : List (List String)) (d : Nat) (ma : Option PyLit)
    (mS : Int) (st : PrepState)
    (hms : minScaledRun ma d = some mS)
    (hrun : prepare_csv_run rows d ma = .done st)
    (hv : foldKeeps zeroDec (rows.filterMap finiteAmount) = true)
    (hd : foldKeeps zeroDec (rows.filterMap (dustAmountRun d mS)) = true) :
    valD st.totalOriginal = ((rows.filterMap finiteAmount).map valD).sum ∧
    valD st.totalOriginal =
      ((rows.filterMap (keptAmountRun d mS)).map valD).sum + valD st.dustTotal := by
  rw [prepare_csv_run, hms] at hrun
  have h1 := runFold_totalOriginal d mS rows initState st hrun (by simpa [initState] using hv)
  have h2 := runFold_dustTotal d mS rows initState st hrun (by simpa [initState] using hd)
  have h3 := runFold_split d mS rows initState st hrun
  have h1s : valD st.totalOriginal = ((rows.filterMap finiteAmount).map valD).sum := by
    simpa [initState, valD_zeroDec] using h1
  have h2s : valD st.dustTotal = ((rows.filterMap (dustAmountRun d mS)).map valD).sum := by
    simpa [initState, valD_zeroDec] using h2
  exact ⟨h1s, by rw [h1s, h3, h2s]⟩

/-- C10 witness: on a completed run with one kept row and one dust row
the original total is the exact sum of all finite amounts and splits
into the kept sum plus the dust total. -/
theorem claim10_witness :
    valD ((⟨["a,1000000000000000000\n"], ⟨10 ^ 18, 0⟩, ⟨1000001, -6⟩, 1, 1, ⟨1, -6⟩⟩ :
        PrepState).totalOriginal) =
      ((([["a", "1"], ["b", "0.000001"]] : List (List String)).filterMap finiteAmount).map
        valD).sum ∧
    valD ((⟨["a,1000000000000000000\n"], ⟨10 ^ 18, 0⟩, ⟨1000001, -6⟩, 1, 1, ⟨1, -6⟩⟩ :
        PrepState).totalOriginal) =
      ((([["a", "1"], ["b", "0.000001"]] : List (List String)).filterMap
        (keptAmountRun 18 (10 ^ 13))).map valD).sum +
        valD ((⟨["a,1000000000000000000\n"], ⟨10 ^ 18, 0⟩, ⟨1000001, -6⟩, 1, 1, ⟨1, -6⟩⟩ :
          PrepState).dustTotal) :=
  claim10_total_original [["a", "1"], ["b", "0.000001"]] 18 none (10 ^ 13) _
    (by decide) (by decide) (by decide) (by decide)

/-- C10 counterexample: on the input `a,1E+28` and `b,1` (both finite,
both kept, run completed) the printed original-total accumulator is
10 ^ 28, because the 29-digit intermediate sum is rounded by the
context, while the exact sum of the finite amounts is 10 ^ 28 + 1. -/
theorem claim10_counterexample :
    prepare_csv_run [["a", "1E+28"], ["b", "1"]] 0 none =
      .done ⟨["a,10000000000000000000000000000\n", "b,1\n"], ⟨10 ^ 27, 1⟩, ⟨10 ^ 27, 1⟩,
        2, 0, ⟨0, 0⟩⟩ ∧
    valD (⟨10 ^ 27, 1⟩ : PyDec) ≠
      ((([["a", "1E+28"], ["b", "1"]] : List (List String)).filterMap finiteAmount).map
        valD).sum := by
  constructor
  · decide
  · have h2 : ([["a", "1E+28"], ["b", "1"]] : List (List String)).filterMap finiteAmount =
        [⟨1, 28⟩, ⟨1, 0⟩] := by decide
    rw [h2]
    simp [valD]
    norm_num

/-- C4: any failure of the symbol fetch (network error, RPC error member,
falsy or undecodable result) yields the sentinel `UNKNOWN` and never
aborts the run, while the metadata fetch aborts exactly when the decimals
fetch fails, and in `__main__` a failed decimals fetch ends the run at
the fetch-error exit regardless of the symbol response. -/
theorem claim4_fetch_error_handling :
    (∀ o : FetchOutcome,
        ((∃ m, o = .netError m) ∨
          ∃ err res, o = .ok err res ∧
            (err.isSome = true ∨ resFalsy res = true ∨
              decodeSymbolResult (res.getD "") = none)) →
        get_token_symbol o = "UNKNOWN") ∧
    (∀ dResp sResp : FetchOutcome,
        (∃ e, fetch_token_info dResp sResp = .error e) ↔
          ∃ e, get_token_decimals dResp = .error e) ∧
    (∀ (argv : List String) (rpcUrl : Option String) (dResp sResp : FetchOutcome)
        (rows : List (List String)) (e : String) (out : Option String) (ma : Option PyDec),
        ¬argv.length < 3 → parseArgs (argv.drop 3) none none = .ok out ma →
        rpcFalsy rpcUrl = false → get_token_decimals dResp = .error e →
        pyMain argv rpcUrl dResp sResp rows = .fetchErrorExit e) := by
  refine ⟨?_, ?_, ?_⟩
  · rintro o (⟨m, rfl⟩ | ⟨err, res, rfl, hcase⟩)
    · rfl
    · rcases hcase with herr | hres | hdec
      · simp [get_token_symbol, herr]
      · simp [get_token_symbol, hres]
      · by_cases hguard : err.isSome || resFalsy res
        · simp [get_token_symbol, hguard]
        · simp [get_token_symbol, hguard, hdec]
  · intro dResp sResp
    constructor
    · rintro ⟨e, he⟩
      cases hd : get_token_decimals dResp with
      | error e2 => exact ⟨e2, rfl⟩
      | ok n => rw [fetch_token_info, hd] at he; exact absurd he (by simp)
    · rintro ⟨e, hd⟩
      exact ⟨e, by rw [fetch_token_info, hd]⟩
  · intro argv rpcUrl dResp sResp rows e out ma h3 hparse hrpc hd
    rw [pyMain, if_neg h3, hparse, hrpc]
    simp only [Bool.false_eq_true, if_false, fetch_token_info, hd]

/-- C4 witness: a timed-out symbol fetch yields `UNKNOWN`, and a run whose
decimals fetch reports an RPC error aborts at the fetch-error exit. -/
theorem claim4_witness :
    get_token_symbol (.netError "timeout") = "UNKNOWN" ∧
    pyMain ["prog", "in.csv", "0xtok"] (some "http://rpc") (.ok (some "boom") none)
      (.netError "timeout") [] = .fetchErrorExit "RPC error: boom" :=
  ⟨claim4_fetch_error_handling.1 (.netError "timeout") (Or.inl ⟨"timeout", rfl⟩),
    claim4_fetch_error_handling.2.2 ["prog", "in.csv", "0xtok"] (some "http://rpc")
      (.ok (some "boom") none) (.netError "timeout") [] "RPC error: boom" none none
      (by decide) rfl rfl rfl⟩

/-- C8: with fewer than 2 positional arguments the run ends at the usage
exit whatever the RPC responses and input file hold (so before any RPC
call or file access), and whenever the RPC_URL environment value is
absent or empty the run ends in a failure outcome with a non-zero exit
status. -/
theorem claim8_cli_guards (argv : List String) (rpcUrl : Option String)
    (dResp sResp : FetchOutcome) (rows : List (List String)) :
    (argv.length < 3 → pyMain argv rpcUrl dResp sResp rows = .usageExit) ∧
    (rpcFalsy rpcUrl = true → isFailure (pyMain argv rpcUrl dResp sResp rows) = true) := by
  constructor
  · intro h
    rw [pyMain, if_pos h]
  · intro h
    by_cases h3 : argv.length < 3
    · rw [pyMain, if_pos h3]; rfl
    · rw [pyMain, if_neg h3]
      cases hp : parseArgs (argv.drop 3) none none with
      | crash => rfl
      | ok out ma => simp [h, isFailure]

/-- C8 witness: a bare invocation ends at the usage exit and an
invocation without RPC_URL is a failure outcome. -/
theorem claim8_witness :
    pyMain ["prog"] none (.netError "a") (.netError "b") [] = .usageExit ∧
    isFailure (pyMain ["prog", "x.csv", "0xdead"] none (.netError "a") (.netError "b") []) =
      true :=
  ⟨(claim8_cli_guards ["prog"] none (.netError "a") (.netError "b") []).1 (by decide),
    (claim8_cli_guards ["prog", "x.csv", "0xdead"] none (.netError "a") (.netError "b") []).2
      rfl⟩

end Avs

